import Mathlib

/-!
# Gos toolchain: shallow embedding and verification

A shallow embedding of the Gos language core (wayuto/Gos, TypeScript):
the runtime value model, the AST, the constant-folding `Optimizer`
(src/unnamed/part_007), the bytecode `Compiler` (src/unnamed/part_005),
the stack `GVM` (src/src/bytecode/gvm.ts, first class, lines 6-210),
the binary serializer (src/src/bytecode/serialize.ts), the tree-walking
`Context` (src/src/ast-walking/context.ts) and the `Lexer`
(src/src/lexer.ts), together with theorems settling the frozen claims.

Modelling conventions:
* JS numbers are modelled by `Gos.JsNum`: an exact rational together with
  the special values Infinity, -Infinity and NaN.  The Gos pipeline only
  produces decimal literals and folds them with `+ - * /` and
  comparisons, which this model follows exactly; double rounding of
  non-representable rationals is not modelled (no claim depends on it).
* JS `Array.prototype.pop` on an empty array yields `undefined`; the
  model mirrors this with an explicit default.
* Fallible TypeScript code (`err`, which throws) is modelled with
  `Except String`.
-/

namespace Gos

/-- Model of a JavaScript number: an exact rational or one of the IEEE
special values.  (`-0` is identified with `0`; no claim observes the
difference.) -/
inductive JsNum where
  | fin (q : ℚ)
  | posInf
  | negInf
  | nan
deriving DecidableEq, Repr

/-- The runtime value type `Literal` of token.ts:
`string | number | boolean | void`. -/
inductive Literal where
  | num (n : JsNum)
  | str (s : String)
  | bool (b : Bool)
  | undef
deriving DecidableEq, Repr

namespace JsNum

/-- JS addition on numbers. -/
def add : JsNum → JsNum → JsNum
  | nan, _ => nan
  | _, nan => nan
  | posInf, negInf => nan
  | negInf, posInf => nan
  | posInf, _ => posInf
  | _, posInf => posInf
  | negInf, _ => negInf
  | _, negInf => negInf
  | fin a, fin b => fin (a + b)

/-- JS negation on numbers. -/
def neg : JsNum → JsNum
  | nan => nan
  | posInf => negInf
  | negInf => posInf
  | fin a => fin (-a)

/-- JS subtraction on numbers. -/
def sub (a b : JsNum) : JsNum := add a (neg b)

/-- JS multiplication on numbers. -/
def mul : JsNum → JsNum → JsNum
  | nan, _ => nan
  | _, nan => nan
  | posInf, posInf => posInf
  | posInf, negInf => negInf
  | negInf, posInf => negInf
  | negInf, negInf => posInf
  | posInf, fin b => if b > 0 then posInf else if b < 0 then negInf else nan
  | fin a, posInf => if a > 0 then posInf else if a < 0 then negInf else nan
  | negInf, fin b => if b > 0 then negInf else if b < 0 then posInf else nan
  | fin a, negInf => if a > 0 then negInf else if a < 0 then posInf else nan
  | fin a, fin b => fin (a * b)

/-- JS division on numbers.  Division never throws: a zero divisor
yields Infinity, -Infinity or NaN. -/
def div : JsNum → JsNum → JsNum
  | nan, _ => nan
  | _, nan => nan
  | posInf, posInf => nan
  | posInf, negInf => nan
  | negInf, posInf => nan
  | negInf, negInf => nan
  | posInf, fin b => if b < 0 then negInf else posInf
  | negInf, fin b => if b < 0 then posInf else negInf
  | fin _, posInf => fin 0
  | fin _, negInf => fin 0
  | fin a, fin b =>
      if b = 0 then
        if a > 0 then posInf else if a < 0 then negInf else nan
      else fin (a / b)

/-- JS `<` on two numbers (false whenever NaN is involved). -/
def lt : JsNum → JsNum → Bool
  | nan, _ => false
  | _, nan => false
  | posInf, _ => false
  | negInf, negInf => false
  | negInf, _ => true
  | fin _, posInf => true
  | fin _, negInf => false
  | fin a, fin b => a < b

/-- JS `<=` on two numbers (false whenever NaN is involved; not the
negation of `>` because of NaN). -/
def le : JsNum → JsNum → Bool
  | nan, _ => false
  | _, nan => false
  | negInf, _ => true
  | _, posInf => true
  | posInf, _ => false
  | _, negInf => false
  | fin a, fin b => a ≤ b

/-- Truncation toward zero of a rational, as JS `ToInt32` starts from. -/
def truncQ (q : ℚ) : Int := if q ≥ 0 then ⌊q⌋ else ⌈q⌉

/-- JS `ToInt32`: truncate, wrap modulo 2^32, reinterpret signed. -/
def toInt32 : JsNum → Int
  | nan => 0
  | posInf => 0
  | negInf => 0
  | fin q =>
      let m : Int := truncQ q % 4294967296
      if m ≥ 2147483648 then m - 4294967296 else m

/-- The unsigned 32-bit representative of a `toInt32` result. -/
def toUInt32Rep (n : JsNum) : Nat := (toInt32 n % 4294967296).toNat

/-- Reinterpret an unsigned 32-bit word as a signed number. -/
def ofInt32Rep (u : Nat) : JsNum :=
  if u ≥ 2147483648 then fin ((u : Int) - 4294967296 : Int) else fin (u : Int)

/-- JS bitwise AND on numbers. -/
def band (a b : JsNum) : JsNum :=
  ofInt32Rep (Nat.land (toUInt32Rep a) (toUInt32Rep b))

/-- JS bitwise OR on numbers. -/
def bor (a b : JsNum) : JsNum :=
  ofInt32Rep (Nat.lor (toUInt32Rep a) (toUInt32Rep b))

/-- JS bitwise XOR on numbers. -/
def bxor (a b : JsNum) : JsNum :=
  ofInt32Rep (Nat.xor (toUInt32Rep a) (toUInt32Rep b))

/-- Decimal rendering of a number, as JS `ToString` produces for the
integral and finite-decimal values the pipeline manipulates.  For a
rational whose denominator divides no power of ten up to 10^40 the
default rational rendering stands in (JS would print a rounded double;
no claim depends on this corner). -/
def toStr : JsNum → String
  | posInf => "Infinity"
  | negInf => "-Infinity"
  | nan => "NaN"
  | fin q =>
      if q.den = 1 then toString q.num
      else
        match (List.range 41).find? (fun k => 10 ^ k % q.den = 0) with
        | some k =>
            let scaled : Int := q.num * (10 ^ k / q.den)
            let sign := if q.num < 0 then "-" else ""
            let digits := toString scaled.natAbs
            let padded :=
              if digits.length ≤ k then
                String.mk (List.replicate (k + 1 - digits.length) '0') ++ digits
              else digits
            let intPart := padded.take (padded.length - k)
            let fracPart := padded.drop (padded.length - k)
            sign ++ intPart ++ "." ++ fracPart
        | none => toString q

end JsNum

/-- JS truthiness: `0`, `NaN`, the empty string, `false` and
`undefined` are falsy, everything else is truthy. -/
def truthy : Literal → Bool
  | .num (.fin q) => q ≠ 0
  | .num .nan => false
  | .num _ => true
  | .str s => s ≠ ""
  | .bool b => b
  | .undef => false

/-- JS `ToNumber` on a decimal-digit string (optionally signed, with an
optional fractional part); other strings map to NaN.  JS additionally
accepts hex, exponent and Infinity forms, which the Gos pipeline never
produces; no claim depends on them. -/
def strToNum (s : String) : JsNum :=
  let t := s.trim
  if t = "" then .fin 0 else
  let (sign, body) :=
    match t.toList with
    | '-' :: rest => ((-1 : ℚ), rest)
    | '+' :: rest => ((1 : ℚ), rest)
    | l => ((1 : ℚ), l)
  let digits := fun (l : List Char) => l.all (fun c => c.isDigit) && l ≠ []
  let numOf := fun (l : List Char) =>
    ((l.foldl (fun acc c => acc * 10 + (c.toNat - 48)) 0 : Nat) : ℚ)
  match body.span (fun c => c ≠ '.') with
  | (ip, []) =>
      if digits ip then .fin (sign * numOf ip) else .nan
  | (ip, _ :: fp) =>
      if digits ip && digits fp then
        .fin (sign * (numOf ip + numOf fp / (10 ^ fp.length : ℚ)))
      else .nan

/-- JS `ToNumber` on a runtime value. -/
def toNumber : Literal → JsNum
  | .num n => n
  | .bool b => if b then .fin 1 else .fin 0
  | .undef => .nan
  | .str s => strToNum s

/-- JS `ToString` on a runtime value. -/
def toStr : Literal → String
  | .num n => n.toStr
  | .str s => s
  | .bool b => if b then "true" else "false"
  | .undef => "undefined"

/-- JS `+`: string concatenation when either operand is a string,
numeric addition otherwise. -/
def jsAdd (a b : Literal) : Literal :=
  match a, b with
  | .str _, _ => .str (toStr a ++ toStr b)
  | _, .str _ => .str (toStr a ++ toStr b)
  | _, _ => .num (JsNum.add (toNumber a) (toNumber b))

/-- JS `-` on runtime values. -/
def jsSub (a b : Literal) : Literal := .num (JsNum.sub (toNumber a) (toNumber b))

/-- JS `*` on runtime values. -/
def jsMul (a b : Literal) : Literal := .num (JsNum.mul (toNumber a) (toNumber b))

/-- JS `/` on runtime values. -/
def jsDiv (a b : Literal) : Literal := .num (JsNum.div (toNumber a) (toNumber b))

/-- JS strict equality `===`: no coercion, `NaN !== NaN`. -/
def jsStrictEq : Literal → Literal → Bool
  | .num .nan, _ => false
  | _, .num .nan => false
  | .num a, .num b => a = b
  | .str a, .str b => a = b
  | .bool a, .bool b => a = b
  | .undef, .undef => true
  | _, _ => false

/-- JS `<`: lexicographic when both operands are strings, numeric
otherwise. -/
def jsLt (a b : Literal) : Bool :=
  match a, b with
  | .str x, .str y => decide (x < y)
  | _, _ => JsNum.lt (toNumber a) (toNumber b)

/-- JS `<=`. -/
def jsLe (a b : Literal) : Bool :=
  match a, b with
  | .str x, .str y => decide (x ≤ y)
  | _, _ => JsNum.le (toNumber a) (toNumber b)

/-- JS `>`. -/
def jsGt (a b : Literal) : Bool := jsLt b a

/-- JS `>=`. -/
def jsGe (a b : Literal) : Bool := jsLe b a

/-- JS `&&`: the left operand if falsy, else the right operand. -/
def jsAnd (a b : Literal) : Literal := if truthy a then b else a

/-- JS `||`: the left operand if truthy, else the right operand. -/
def jsOr (a b : Literal) : Literal := if truthy a then a else b

/-- JS `&` on runtime values. -/
def jsBand (a b : Literal) : Literal := .num (JsNum.band (toNumber a) (toNumber b))

/-- JS `|` on runtime values. -/
def jsBor (a b : Literal) : Literal := .num (JsNum.bor (toNumber a) (toNumber b))

/-- JS `^` on runtime values. -/
def jsBxor (a b : Literal) : Literal := .num (JsNum.bxor (toNumber a) (toNumber b))

/-- JS `!`. -/
def jsNot (a : Literal) : Literal := .bool (!truthy a)

/-- JS unary `-` (applies `ToNumber`). -/
def jsNeg (a : Literal) : Literal := .num (JsNum.neg (toNumber a))

end Gos

namespace Gos

/-- The token kinds of token.ts (`export const enum TokenType`). -/
inductive TokenType where
  | OP_ADD | OP_SUB | OP_MUL | OP_DIV | OP_NEG | OP_POS | OP_INC | OP_DEC
  | OP_EQ
  | COMP_EQ | COMP_NE | COMP_GT | COMP_GE | COMP_LT | COMP_LE
  | COMP_AND | COMP_OR
  | LOG_NOT | LOG_AND | LOG_OR | LOG_XOR
  | LITERAL
  | LPAREN | RPAREN | LBRACE | RBRACE | COLON
  | VAR_DECL | VAR_DEL | VAR | IN | OUT
  | IF | ELSE | WHILE | LABEL | GOTO | EXIT
  | FUNC_DECL | CALL | RETURN | IDENT | EVAL | EOF
deriving DecidableEq, Repr

/-- The AST of ast.ts.  `Return`'s value is optional in the compiler;
`If`'s else branch is optional. -/
inductive Expression where
  | val (value : Literal)
  | var (name : String)
  | varDecl (name : String) (value : Expression)
  | varMod (name : String) (value : Expression)
  | binOp (op : TokenType) (left right : Expression)
  | unaryOp (op : TokenType) (argument : Expression)
  | out (value : Expression)
  | inp (name : String)
  | ifE (cond : Expression) (body : Expression) (els : Option Expression)
  | whileE (cond : Expression) (body : Expression)
  | stmt (body : List Expression)
  | funcDecl (name : String) (params : List String) (body : Expression)
  | funcCall (name : String) (args : List Expression)
  | ret (value : Option Expression)
  | exit (status : Expression)
  | evalE (code : Expression)
  | label (name : String)
  | goto (name : String)
deriving Repr

/-- A program is its list of top-level expressions. -/
abbrev Program := List Expression

/-! ## Optimizer (src/unnamed/part_007, class `Optimizer`)

`fold` returns `Expression | void` in TypeScript; `void` (`undefined`,
for an eliminated If/While or an empty Stmt) is modelled as `none`.
A TS non-null assertion `x!` on a `void` result followed by a `.type`
access would throw a TypeError at runtime; the model returns `none`
for the enclosing node in that case (no claim reaches this corner). -/

mutual

/-- TS `Optimizer.fold`, arm for arm.  Note the `COMP_OR` arm: the source
computes `left.value && right.value` (the same expression as the
`COMP_AND` arm directly above it), not `||`. -/
def fold : Expression → Option Expression
  | .binOp op l r =>
      match fold l, fold r with
      | some left, some right =>
          match left, right with
          | .val lv, .val rv =>
              match op with
              | .OP_ADD => some (.val (jsAdd lv rv))
              | .OP_SUB => some (.val (jsSub lv rv))
              | .OP_MUL => some (.val (jsMul lv rv))
              | .OP_DIV => some (.val (jsDiv lv rv))
              | .COMP_EQ => some (.val (.bool (jsStrictEq lv rv)))
              | .COMP_NE => some (.val (.bool (!jsStrictEq lv rv)))
              | .COMP_GT => some (.val (.bool (jsGt lv rv)))
              | .COMP_GE => some (.val (.bool (jsGe lv rv)))
              | .COMP_LT => some (.val (.bool (jsLt lv rv)))
              | .COMP_LE => some (.val (.bool (jsLe lv rv)))
              | .COMP_AND => some (.val (jsAnd lv rv))
              | .COMP_OR => some (.val (jsAnd lv rv))
              | .LOG_AND => some (.val (jsBand lv rv))
              | .LOG_OR => some (.val (jsBor lv rv))
              | .LOG_XOR => some (.val (jsBxor lv rv))
              | _ => some (.binOp op left right)
          | _, _ => some (.binOp op left right)
      | _, _ => none
  | .unaryOp op a =>
      match fold a with
      | some v =>
          match v with
          | .val vv =>
              match op with
              | .OP_NEG => some (.val (jsNeg vv))
              | .LOG_NOT => some (.val (jsNot vv))
              | _ => some (.unaryOp op v)
          | _ => some (.unaryOp op v)
      | none => none
  | .varDecl name value =>
      match fold value with
      | some v => some (.varDecl name v)
      | none => none
  | .ifE cond body els =>
      match fold cond with
      | some (.val cv) =>
          if truthy cv then fold body
          else
            match els with
            | some e => fold e
            | none => none
      | some _ =>
          match els with
          | some e =>
              some (.ifE cond ((fold body).getD (.stmt []))
                (some ((fold e).getD (.stmt []))))
          | none =>
              some (.ifE cond ((fold body).getD (.stmt [])) none)
      | none => none
  | .whileE cond body =>
      match fold cond with
      | some (.val cv) =>
          if truthy cv then
            some (.whileE ((fold cond).getD (.stmt []))
              ((fold body).getD (.stmt [])))
          else none
      | some c =>
          some (.whileE c ((fold body).getD (.stmt [])))
      | none => none
  | .stmt body =>
      if body.isEmpty then none
      else some (.stmt (foldList body))
  | e => some e
termination_by e => sizeOf e

/-- The `body.map(fold!).filter(undefined-free)` part of the Stmt arm. -/
def foldList : List Expression → List Expression
  | [] => []
  | e :: es =>
      match fold e with
      | some v => v :: foldList es
      | none => foldList es
termination_by es => sizeOf es

end

/-- TS `Optimizer.optimize`. -/
def optimize (p : Program) : Program := foldList p

end Gos

namespace Gos

/-- Bytecode opcodes.  The first 22 members follow the `Op` enum of
src/src/bytecode/bytecode.ts in order (codes 0..21).  The remaining
members are the opcodes used by the newer Compiler (src/unnamed/part_005)
and the first `GVM` class of gvm.ts, whose extended enum source is not
under src/; their numbering (22..30 here) is immaterial: no claim
depends on opcode byte values, only on the compiler and the VM agreeing
on them. -/
inductive Op where
  | LOAD_CONST | LOAD_VAR | STORE_VAR
  | ADD | SUB | MUL | DIV
  | NEG | POS | INC | DEC | LOG_NOT
  | EQ | NE | GT | GE | LT | LE
  | OUT | JUMP | JUMP_IF_FALSE | HALT
  | POP | LOG_AND | LOG_OR | LOG_XOR | IN | CALL | RET | EXIT | EVAL
deriving DecidableEq, Repr

/-- The numeric value of an opcode in the instruction stream. -/
def Op.toNat : Op → Nat
  | .LOAD_CONST => 0 | .LOAD_VAR => 1 | .STORE_VAR => 2
  | .ADD => 3 | .SUB => 4 | .MUL => 5 | .DIV => 6
  | .NEG => 7 | .POS => 8 | .INC => 9 | .DEC => 10 | .LOG_NOT => 11
  | .EQ => 12 | .NE => 13 | .GT => 14 | .GE => 15 | .LT => 16 | .LE => 17
  | .OUT => 18 | .JUMP => 19 | .JUMP_IF_FALSE => 20 | .HALT => 21
  | .POP => 22 | .LOG_AND => 23 | .LOG_OR => 24 | .LOG_XOR => 25
  | .IN => 26 | .CALL => 27 | .RET => 28 | .EXIT => 29 | .EVAL => 30

/-! ## Compiler (src/unnamed/part_005, class `Compiler`) -/

/-- One lexical scope: a name-to-slot map and the number of slots the
scope introduced. -/
structure Scope where
  vars : List (String × Nat)
  slotCount : Nat
deriving Repr

/-- A function-table entry: code address and parameter count. -/
structure FuncInfo where
  addr : Nat
  paramCount : Nat
deriving Repr, DecidableEq

/-- The compiler's mutable state.  Scope and function-table stacks are
lists with the innermost (TS array end) at the head.  `hiSlot` is a
ghost field recording the high-water mark of `nextSlot`; the TS
compiler does not track it, and no emitted code or result reads it. -/
structure CompState where
  constants : List Literal
  codes : List Nat
  scopes : List Scope
  nextSlot : Nat
  funcs : List (List (String × FuncInfo))
  labels : List (String × Nat × Nat)
  hiSlot : Nat
deriving Repr

/-- The state a fresh `Compiler` starts from. -/
def initComp : CompState :=
  { constants := [], codes := [], scopes := [⟨[], 0⟩], nextSlot := 0,
    funcs := [[]], labels := [], hiSlot := 0 }

/-- Look a key up in an association list (newest binding first), as
`Map.get` after our cons-on-`set` encoding. -/
def alGet {α : Type} (l : List (String × α)) (name : String) : Option α :=
  (l.find? (fun p => p.1 = name)).map (fun p => p.2)

/-- TS `emit`: append an opcode and its inline operands. -/
def emit (st : CompState) (bytes : List Nat) : CompState :=
  { st with codes := st.codes ++ bytes }

/-- TS `enterScope`. -/
def enterScope (st : CompState) : CompState :=
  { st with scopes := ⟨[], 0⟩ :: st.scopes, funcs := [] :: st.funcs }

/-- TS `exitScope`: pop the innermost scope and return its slots. -/
def exitScope (st : CompState) : CompState :=
  match st.scopes with
  | s :: rest =>
      { st with
        scopes := rest
        nextSlot := st.nextSlot - s.slotCount
        funcs := st.funcs.tail }
  | [] => { st with funcs := st.funcs.tail }

/-- TS `loadVar`: inner-to-outer scope search. -/
def loadVar (st : CompState) (name : String) : Option Nat :=
  match st.scopes.findSome? (fun s => alGet s.vars name) with
  | some slot => some slot
  | none => none

/-- TS `loadFunc`: inner-to-outer function-table search. -/
def loadFunc (st : CompState) (name : String) : Option FuncInfo :=
  st.funcs.findSome? (fun m => alGet m name)

/-- TS `declVar`: allocate the next slot for `name` in the innermost scope.
There is no duplicate check: an existing binding is shadowed and a
fresh slot is still consumed.  Also maintains the ghost high-water
mark. -/
def declVar (st : CompState) (name : String) : Nat × CompState :=
  let slot := st.nextSlot
  let scopes :=
    match st.scopes with
    | s :: rest =>
        { s with
          vars := (name, slot) :: s.vars
          slotCount := s.slotCount + 1 } :: rest
    | [] => []
  (slot, { st with
           scopes := scopes
           nextSlot := slot + 1
           hiSlot := max st.hiSlot (slot + 1) })

/-- Register a function in the innermost function table. -/
def setFunc (st : CompState) (name : String) (f : FuncInfo) : CompState :=
  match st.funcs with
  | m :: rest => { st with funcs := ((name, f) :: m) :: rest }
  | [] => st

/-- TS `patchJumpAddr`: overwrite a two-byte big-endian jump target. -/
def patchJumpAddr (st : CompState) (pos addr : Nat) : CompState :=
  { st with codes := (st.codes.set pos (addr / 256 % 256)).set (pos + 1) (addr % 256) }

/-- Declare each parameter as a slot, in declaration order. -/
def declParams (st : CompState) (params : List String) : CompState :=
  params.foldl (fun s p => (declVar s p).2) st

mutual

/-- TS `Compiler.compileExpr`, arm for arm.  In the `BinOp` arm the inner
switch has cases only for the four arithmetic and six comparison
operators; every other operator (`COMP_AND`, `COMP_OR`, `LOG_AND`,
`LOG_OR`, `LOG_XOR`, ...) falls through it and emits nothing. -/
def compileExpr (st : CompState) : Expression → Except String CompState
  | .val v =>
      let st1 := { st with constants := st.constants ++ [v] }
      .ok (emit st1 [Op.LOAD_CONST.toNat, st1.constants.length - 1])
  | .var name =>
      match loadVar st name with
      | none => .error "Compiler: Variable has not been defined"
      | some slot => .ok (emit st [Op.LOAD_VAR.toNat, slot])
  | .varDecl name value => do
      let st1 ← compileExpr st value
      let (slot, st2) := declVar st1 name
      .ok (emit st2 [Op.STORE_VAR.toNat, slot, Op.POP.toNat])
  | .varMod name value => do
      let st1 ← compileExpr st value
      match loadVar st1 name with
      | none => .error "Compiler: Variable has not been defined"
      | some slot => .ok (emit st1 [Op.STORE_VAR.toNat, slot, Op.POP.toNat])
  | .binOp op l r => do
      let st1 ← compileExpr st l
      let st2 ← compileExpr st1 r
      match op with
      | .OP_ADD => .ok (emit st2 [Op.ADD.toNat])
      | .OP_SUB => .ok (emit st2 [Op.SUB.toNat])
      | .OP_MUL => .ok (emit st2 [Op.MUL.toNat])
      | .OP_DIV => .ok (emit st2 [Op.DIV.toNat])
      | .COMP_EQ => .ok (emit st2 [Op.EQ.toNat])
      | .COMP_NE => .ok (emit st2 [Op.NE.toNat])
      | .COMP_GT => .ok (emit st2 [Op.GT.toNat])
      | .COMP_GE => .ok (emit st2 [Op.GE.toNat])
      | .COMP_LT => .ok (emit st2 [Op.LT.toNat])
      | .COMP_LE => .ok (emit st2 [Op.LE.toNat])
      | _ => .ok st2
  | .unaryOp op a => do
      let st1 ← compileExpr st a
      match op, a with
      | .OP_INC, .var name =>
          let slot := (loadVar st1 name).getD 0
          .ok (emit st1 [Op.LOAD_VAR.toNat, slot, Op.INC.toNat,
            Op.STORE_VAR.toNat, slot])
      | .OP_DEC, .var name =>
          let slot := (loadVar st1 name).getD 0
          .ok (emit st1 [Op.LOAD_VAR.toNat, slot, Op.DEC.toNat,
            Op.STORE_VAR.toNat, slot])
      | .LOG_NOT, _ => .ok (emit st1 [Op.LOG_NOT.toNat])
      | .OP_NEG, _ => .ok (emit st1 [Op.NEG.toNat])
      | _, _ => .ok (emit st1 [Op.POS.toNat])
  | .out value => do
      let st1 ← compileExpr st value
      .ok (emit st1 [Op.OUT.toNat])
  | .inp name =>
      let (slot, st1) := declVar st name
      .ok (emit st1 [Op.IN.toNat, slot])
  | .stmt body =>
      match body with
      | [] =>
          let st1 := enterScope st
          let st2 := { st1 with constants := st1.constants ++ [.undef] }
          .ok (exitScope (emit st2 [Op.LOAD_CONST.toNat, st2.constants.length - 1]))
      | e :: es => do
          let st2 ← compileStmtBody (enterScope st) e es
          .ok (exitScope st2)
  | .ifE cond body els => do
      let st1 ← compileExpr st cond
      let thenPos := st1.codes.length
      let st2 := emit st1 [Op.JUMP_IF_FALSE.toNat, 0, 0]
      let st3 ← compileExpr (enterScope st2) body
      let st4 := exitScope st3
      match els with
      | none =>
          .ok (patchJumpAddr st4 (thenPos + 1) st4.codes.length)
      | some e =>
          let elsePos := st4.codes.length
          let st5 := emit st4 [Op.JUMP.toNat, 0, 0]
          let st6 := patchJumpAddr st5 (thenPos + 1) st5.codes.length
          let st7 ← compileExpr (enterScope st6) e
          let st8 := exitScope st7
          .ok (patchJumpAddr st8 (elsePos + 1) st8.codes.length)
  | .whileE cond body => do
      let st1 := enterScope st
      let loopPos := st1.codes.length
      let st2 ← compileExpr st1 cond
      let jif := st2.codes.length
      let st3 := emit st2 [Op.JUMP_IF_FALSE.toNat, 0, 0]
      let st4 ← compileExpr st3 body
      let st5 := emit st4 [Op.JUMP.toNat, loopPos / 256 % 256, loopPos % 256]
      .ok (exitScope (patchJumpAddr st5 (jif + 1) st5.codes.length))
  | .funcDecl name params body =>
      let jumpAddr := st.codes.length
      let st1 := emit st [Op.JUMP.toNat, 0, 0]
      let funcAddr := st1.codes.length
      match alGet (st1.funcs.headD []) name with
      | some _ =>
          .error "Compiler: Function has already been declared in this scope"
      | none => do
          let st2 := setFunc st1 name ⟨funcAddr, params.length⟩
          let st3 := declParams (enterScope st2) params
          let st4 ← compileExpr st3 body
          let st5 := exitScope (emit st4 [Op.RET.toNat])
          .ok (patchJumpAddr st5 (jumpAddr + 1) st5.codes.length)
  | .funcCall name args => do
      let st1 ← compileSeq st args
      match loadFunc st1 name with
      | none =>
          .error "Compiler: Function has not been declared in this scope"
      | some f =>
          if f.paramCount ≠ args.length then
            .error "Compiler: wrong number of arguments"
          else
            .ok (emit st1 [Op.CALL.toNat, f.addr / 256 % 256, f.addr % 256,
              f.paramCount])
  | .exit status => do
      let st1 ← compileExpr st status
      .ok (emit st1 [Op.EXIT.toNat])
  | .ret value =>
      match value with
      | some v => do
          let st1 ← compileExpr st v
          .ok (emit st1 [Op.RET.toNat])
      | none =>
          let st1 := { st with constants := st.constants ++ [.undef] }
          .ok (emit st1 [Op.LOAD_CONST.toNat, st1.constants.length - 1,
            Op.RET.toNat])
  | .evalE code => do
      let st1 ← compileExpr st code
      .ok (emit st1 [Op.EVAL.toNat])
  | .label name =>
      let addr := st.codes.length
      .ok { st with labels := (name, addr / 256 % 256, addr % 256) :: st.labels }
  | .goto name =>
      match alGet st.labels name with
      | none => .error "Compiler: Label not found"
      | some hl => .ok (emit st [Op.JUMP.toNat, hl.1, hl.2])
termination_by e => sizeOf e

/-- Compile a sequence of expressions one after the other (the
`Program` body loop and `FuncCall` argument loop). -/
def compileSeq (st : CompState) : List Expression → Except String CompState
  | [] => .ok st
  | e :: es => do
      let st1 ← compileExpr st e
      compileSeq st1 es
termination_by es => sizeOf es

/-- Compile a non-empty `Stmt` body: every expression but the last is
followed by `POP`; the last is left on the stack. -/
def compileStmtBody (st : CompState) (e : Expression) :
    List Expression → Except String CompState
  | [] => compileExpr st e
  | e2 :: es => do
      let st1 ← compileExpr st e
      compileStmtBody (emit st1 [Op.POP.toNat]) e2 es
termination_by es => 1 + sizeOf e + sizeOf es

end

/-- The `{ chunk, maxSlot }` record `Compiler.compile` returns. -/
structure CompileResult where
  code : List Nat
  constants : List Literal
  maxSlot : Nat
deriving Repr

/-- TS `Compiler.compile`, kept at the state level so that the ghost
high-water mark stays observable. -/
def compileProgramSt (p : Program) : Except String CompState := do
  let st ← compileSeq initComp p
  .ok (emit st [Op.HALT.toNat])

/-- TS `Compiler.compile`: compile every top-level expression, emit HALT,
and report `maxSlot := nextSlot` (the TS source returns the current
`nextSlot`, whatever it is after all scope exits). -/
def compileProgram (p : Program) : Except String CompileResult :=
  (compileProgramSt p).map fun st => ⟨st.codes, st.constants, st.nextSlot⟩

end Gos

namespace Gos

/-- Inverse of `Op.toNat` (decoding a fetched byte). -/
def Op.decode : Nat → Option Op
  | 0 => some .LOAD_CONST | 1 => some .LOAD_VAR | 2 => some .STORE_VAR
  | 3 => some .ADD | 4 => some .SUB | 5 => some .MUL | 6 => some .DIV
  | 7 => some .NEG | 8 => some .POS | 9 => some .INC | 10 => some .DEC
  | 11 => some .LOG_NOT
  | 12 => some .EQ | 13 => some .NE | 14 => some .GT | 15 => some .GE
  | 16 => some .LT | 17 => some .LE
  | 18 => some .OUT | 19 => some .JUMP | 20 => some .JUMP_IF_FALSE
  | 21 => some .HALT
  | 22 => some .POP | 23 => some .LOG_AND | 24 => some .LOG_OR
  | 25 => some .LOG_XOR | 26 => some .IN | 27 => some .CALL
  | 28 => some .RET | 29 => some .EXIT | 30 => some .EVAL
  | _ => none

/-! ## Virtual machine (src/src/bytecode/gvm.ts, first `GVM` class,
lines 6-210)

The operand stack is a list with the top at the head.  `OUT` is
modelled by appending the popped value to an output trace; `IN` by
consuming a pending (already trimmed) stdin line.  JS
`stack.pop()` on an empty array yields `undefined`, modelled by
`popOr`. -/

/-- A call frame. -/
structure Frame where
  returnIp : Nat
  baseSlot : Nat
deriving Repr, DecidableEq

/-- The VM state. -/
structure VMState where
  ip : Nat
  stack : List Literal
  slots : List Literal
  callStack : List Frame
  currBaseSlot : Nat
  inputs : List String
  output : List Literal
deriving Repr

/-- Result of one dispatch step. -/
inductive StepRes where
  | next (s : VMState)
  | halted (s : VMState)
  | exited (status : Literal) (s : VMState)
  | vmerr (msg : String)
deriving Repr

/-- JS `array.pop()`: the top value (or `undefined`) and the rest. -/
def popOr : List Literal → Literal × List Literal
  | [] => (.undef, [])
  | v :: r => (v, r)

/-- JS `slots[i] = v`: assigning beyond the current length fills the
gap with holes that read back as `undefined`. -/
def setSlot (slots : List Literal) (i : Nat) (v : Literal) : List Literal :=
  if i < slots.length then slots.set i v
  else (slots ++ List.replicate (i + 1 - slots.length) Literal.undef).set i v

/-- One iteration of `GVM.run`'s fetch-decode-execute loop.  An opcode
with no `jmpTable` entry — including `POS`, which the first `GVM`
never registers, and `EVAL`, whose host-environment effect is outside
the model — is a crash (`vmerr`), as is fetching past the end of the
code. -/
def step (ch : CompileResult) (s : VMState) : StepRes :=
  match ch.code.get? s.ip with
  | none => .vmerr "GVM: no handler"
  | some b =>
    match Op.decode b with
    | none => .vmerr "GVM: no handler"
    | some op =>
      match op with
      | .HALT => .halted { s with ip := s.ip + 1 }
      | .LOAD_CONST =>
          match ch.code.get? (s.ip + 1) with
          | none => .next { s with ip := s.ip + 2, stack := .undef :: s.stack }
          | some idx =>
              .next { s with
                ip := s.ip + 2
                stack := (ch.constants.getD idx .undef) :: s.stack }
      | .LOAD_VAR =>
          match ch.code.get? (s.ip + 1) with
          | none => .next { s with ip := s.ip + 2, stack := .undef :: s.stack }
          | some slot =>
              .next { s with
                ip := s.ip + 2
                stack := (s.slots.getD (s.currBaseSlot + slot) .undef) :: s.stack }
      | .STORE_VAR =>
          let (v, rest) := popOr s.stack
          match ch.code.get? (s.ip + 1) with
          | none => .next { s with ip := s.ip + 2, stack := rest }
          | some slot =>
              .next { s with
                ip := s.ip + 2
                stack := rest
                slots := setSlot s.slots (s.currBaseSlot + slot) v }
      | .ADD =>
          let (r, s1) := popOr s.stack
          let (l, s2) := popOr s1
          .next { s with ip := s.ip + 1, stack := jsAdd l r :: s2 }
      | .SUB =>
          let (r, s1) := popOr s.stack
          let (l, s2) := popOr s1
          .next { s with ip := s.ip + 1, stack := jsSub l r :: s2 }
      | .MUL =>
          let (r, s1) := popOr s.stack
          let (l, s2) := popOr s1
          .next { s with ip := s.ip + 1, stack := jsMul l r :: s2 }
      | .DIV =>
          let (r, s1) := popOr s.stack
          let (l, s2) := popOr s1
          .next { s with ip := s.ip + 1, stack := jsDiv l r :: s2 }
      | .EQ =>
          let (r, s1) := popOr s.stack
          let (l, s2) := popOr s1
          .next { s with ip := s.ip + 1, stack := .bool (jsStrictEq l r) :: s2 }
      | .NE =>
          let (r, s1) := popOr s.stack
          let (l, s2) := popOr s1
          .next { s with ip := s.ip + 1, stack := .bool (!jsStrictEq l r) :: s2 }
      | .GT =>
          let (r, s1) := popOr s.stack
          let (l, s2) := popOr s1
          .next { s with ip := s.ip + 1, stack := .bool (jsGt l r) :: s2 }
      | .GE =>
          let (r, s1) := popOr s.stack
          let (l, s2) := popOr s1
          .next { s with ip := s.ip + 1, stack := .bool (jsGe l r) :: s2 }
      | .LT =>
          let (r, s1) := popOr s.stack
          let (l, s2) := popOr s1
          .next { s with ip := s.ip + 1, stack := .bool (jsLt l r) :: s2 }
      | .LE =>
          let (r, s1) := popOr s.stack
          let (l, s2) := popOr s1
          .next { s with ip := s.ip + 1, stack := .bool (jsLe l r) :: s2 }
      | .OUT =>
          let (v, rest) := popOr s.stack
          .next { s with
            ip := s.ip + 1
            stack := rest
            output := s.output ++ [v] }
      | .IN =>
          let (line, restIn) :=
            match s.inputs with
            | [] => ("", ([] : List String))
            | l :: ls => (l, ls)
          match ch.code.get? (s.ip + 1) with
          | none => .next { s with ip := s.ip + 2, inputs := restIn }
          | some slot =>
              .next { s with
                ip := s.ip + 2
                inputs := restIn
                slots := setSlot s.slots (s.currBaseSlot + slot) (.str line) }
      | .POP =>
          .next { s with ip := s.ip + 1, stack := (popOr s.stack).2 }
      | .NEG =>
          let (v, rest) := popOr s.stack
          .next { s with ip := s.ip + 1, stack := jsNeg v :: rest }
      | .INC =>
          let (v, rest) := popOr s.stack
          .next { s with ip := s.ip + 1, stack := jsAdd v (.num (.fin 1)) :: rest }
      | .DEC =>
          let (v, rest) := popOr s.stack
          .next { s with ip := s.ip + 1, stack := jsSub v (.num (.fin 1)) :: rest }
      | .LOG_NOT =>
          let (v, rest) := popOr s.stack
          .next { s with ip := s.ip + 1, stack := jsNot v :: rest }
      | .LOG_AND =>
          let (r, s1) := popOr s.stack
          let (l, s2) := popOr s1
          .next { s with ip := s.ip + 1, stack := jsBand l r :: s2 }
      | .LOG_OR =>
          let (r, s1) := popOr s.stack
          let (l, s2) := popOr s1
          .next { s with ip := s.ip + 1, stack := jsBor l r :: s2 }
      | .LOG_XOR =>
          let (r, s1) := popOr s.stack
          let (l, s2) := popOr s1
          .next { s with ip := s.ip + 1, stack := jsBxor l r :: s2 }
      | .JUMP =>
          let high := ch.code.getD (s.ip + 1) 0
          let low := ch.code.getD (s.ip + 2) 0
          .next { s with ip := Nat.lor (Nat.shiftLeft high 8) low }
      | .JUMP_IF_FALSE =>
          let high := ch.code.getD (s.ip + 1) 0
          let low := ch.code.getD (s.ip + 2) 0
          let (cond, rest) := popOr s.stack
          if truthy cond then .next { s with ip := s.ip + 3, stack := rest }
          else .next { s with ip := Nat.lor (Nat.shiftLeft high 8) low, stack := rest }
      | .CALL =>
          let high := ch.code.getD (s.ip + 1) 0
          let low := ch.code.getD (s.ip + 2) 0
          let argc := ch.code.getD (s.ip + 3) 0
          let target := Nat.lor (Nat.shiftLeft high 8) low
          let frame : Frame := ⟨s.ip + 4, s.currBaseSlot⟩
          let newBase := s.slots.length
          let argsPopped :=
            s.stack.take argc ++ List.replicate (argc - s.stack.length) .undef
          .next { s with
            ip := target
            stack := s.stack.drop argc
            slots := s.slots ++ argsPopped.reverse
            callStack := frame :: s.callStack
            currBaseSlot := newBase }
      | .RET =>
          let (v, rest) := popOr s.stack
          match s.callStack with
          | [] => .next { s with ip := s.ip + 1, stack := rest }
          | f :: cs =>
              .next { s with
                ip := f.returnIp
                stack := if v = .undef then rest else v :: rest
                slots := s.slots.take s.currBaseSlot
                callStack := cs
                currBaseSlot := f.baseSlot }
      | .EXIT =>
          let (v, rest) := popOr s.stack
          .exited v { s with ip := s.ip + 1, stack := rest }
      | .EVAL => .vmerr "GVM: eval escape hatch not modelled"
      | .POS => .vmerr "GVM: no handler"

/-- Iterate `step` for at most `n` dispatches. -/
def stepN (ch : CompileResult) : Nat → VMState → StepRes
  | 0, s => .next s
  | n + 1, s =>
      match step ch s with
      | .next t => stepN ch n t
      | r => r

/-- The state a fresh `GVM` starts from: `new Array(maxSlot)` is
`maxSlot` holes that read back as `undefined`. -/
def initVM (r : CompileResult) (inputs : List String) : VMState :=
  { ip := 0, stack := [], slots := List.replicate r.maxSlot .undef,
    callStack := [], currBaseSlot := 0, inputs := inputs, output := [] }

/-- Proposition that `GVM.run` terminates normally in state `s2` when some number of
dispatches reaches the HALT opcode. -/
def HaltsWith (ch : CompileResult) (s1 s2 : VMState) : Prop :=
  ∃ n, stepN ch n s1 = .halted s2

end Gos

namespace Gos

/-! ## Serializer (src/src/bytecode/serialize.ts)

serialize.ts touches a number constant only through
`setFloat64`/`getFloat64` — its 8-byte IEEE-754 pattern, written and
read back bit for bit — and a string constant only through
`TextEncoder`/`TextDecoder` — its UTF-8 byte sequence.  The model
therefore represents a constant by that payload directly: `num bits`
is the 64-bit pattern as a natural number, `str bytes` the UTF-8
bytes.  All multi-byte scalars of the framing are little-endian, as in
the source. -/

/-- A constant as the binary format sees it. -/
inductive SConst where
  | undef
  | num (bits : Nat)
  | bool (b : Bool)
  | str (bytes : List Nat)
deriving DecidableEq, Repr

/-- Payload well-formedness: a number is a 64-bit pattern, a string has
at most 65535 bytes, each a byte. -/
def SConst.wf : SConst → Prop
  | .num bits => bits < 18446744073709551616
  | .str bytes => bytes.length < 65536 ∧ ∀ b ∈ bytes, b < 256
  | _ => True

/-- A chunk as the binary format sees it. -/
structure SChunk where
  code : List Nat
  constants : List SConst
deriving DecidableEq, Repr

/-- Writer for `setUint8` (truncating). -/
def w8 (n : Nat) : List Nat := [n % 256]

/-- Writer for `setUint16` little-endian. -/
def w16 (n : Nat) : List Nat := [n % 256, n / 256 % 256]

/-- Writer for `setUint32` little-endian. -/
def w32 (n : Nat) : List Nat :=
  [n % 256, n / 256 % 256, n / 65536 % 256, n / 16777216 % 256]

/-- Writer for `setFloat64` little-endian, at the level of the 64-bit pattern. -/
def w64 (n : Nat) : List Nat :=
  [n % 256, n / 256 % 256, n / 65536 % 256, n / 16777216 % 256,
   n / 4294967296 % 256, n / 1099511627776 % 256,
   n / 281474976710656 % 256, n / 72057594037927936 % 256]

/-- Serialize one constant: type tag then payload. -/
def wConst : SConst → List Nat
  | .undef => [0]
  | .num bits => 1 :: w64 bits
  | .bool b => [2, if b then 1 else 0]
  | .str bytes => 3 :: (w16 bytes.length ++ bytes.map (· % 256))

/-- TS `serializeToBinary`: magic, version, code length, code bytes,
constants count, constants, maxSlot. -/
def serializeToBinary (ch : SChunk) (maxSlot : Nat) : List Nat :=
  [71, 79, 83, 66] ++ w16 1 ++ w32 ch.code.length ++ ch.code.map (· % 256)
    ++ w16 ch.constants.length ++ (ch.constants.map wConst).flatten ++ w16 maxSlot

/-- Reader for `getUint8`: reading past the end throws (`none`). -/
def r8 : List Nat → Option (Nat × List Nat)
  | [] => none
  | b :: r => some (b, r)

/-- Reader for `getUint16` little-endian. -/
def r16 : List Nat → Option (Nat × List Nat)
  | b0 :: b1 :: r => some (b0 + 256 * b1, r)
  | _ => none

/-- Reader for `getUint32` little-endian. -/
def r32 : List Nat → Option (Nat × List Nat)
  | b0 :: b1 :: b2 :: b3 :: r =>
      some (b0 + 256 * b1 + 65536 * b2 + 16777216 * b3, r)
  | _ => none

/-- Reader for `getFloat64` little-endian, at the level of the 64-bit pattern. -/
def r64 : List Nat → Option (Nat × List Nat)
  | b0 :: b1 :: b2 :: b3 :: b4 :: b5 :: b6 :: b7 :: r =>
      some (b0 + 256 * b1 + 65536 * b2 + 16777216 * b3
        + 4294967296 * b4 + 1099511627776 * b5
        + 281474976710656 * b6 + 72057594037927936 * b7, r)
  | _ => none

/-- Read exactly `n` raw bytes. -/
def rTake (n : Nat) (l : List Nat) : Option (List Nat × List Nat) :=
  if n ≤ l.length then some (l.take n, l.drop n) else none

/-- Read one constant (unknown type tags throw). -/
def rConst (l : List Nat) : Option (SConst × List Nat) :=
  match l with
  | [] => none
  | t :: r =>
      match t with
      | 0 => some (.undef, r)
      | 1 =>
          match r64 r with
          | some (bits, rest) => some (.num bits, rest)
          | none => none
      | 2 =>
          match r with
          | b :: rest => some (.bool (b ≠ 0), rest)
          | [] => none
      | 3 => do
          let (len, r1) ← r16 r
          let (bytes, r2) ← rTake len r1
          some (.str bytes, r2)
      | _ => none

/-- Read `n` constants. -/
def rConsts : Nat → List Nat → Option (List SConst × List Nat)
  | 0, l => some ([], l)
  | n + 1, l => do
      let (c, r1) ← rConst l
      let (cs, r2) ← rConsts n r1
      some (c :: cs, r2)

/-- TS `load`: parse the binary form back into a chunk and maxSlot,
rejecting a bad magic, version or constant tag. -/
def load (data : List Nat) : Option (SChunk × Nat) := do
  let (m0, d0) ← r8 data
  let (m1, d1) ← r8 d0
  let (m2, d2) ← r8 d1
  let (m3, d3) ← r8 d2
  if m0 ≠ 71 ∨ m1 ≠ 79 ∨ m2 ≠ 83 ∨ m3 ≠ 66 then none
  else do
    let (ver, d4) ← r16 d3
    if ver ≠ 1 then none
    else do
      let (codeLen, d5) ← r32 d4
      let (code, d6) ← rTake codeLen d5
      let (ccount, d7) ← r16 d6
      let (consts, d8) ← rConsts ccount d7
      let (maxSlot, _) ← r16 d8
      some (⟨code, consts⟩, maxSlot)

end Gos

namespace Gos

/-! ### Round-trip lemmas for the serializer -/

theorem r16_w16 (n : Nat) (rest : List Nat) (h : n < 65536) :
    r16 (w16 n ++ rest) = some (n, rest) := by
  simp only [w16, List.cons_append, List.nil_append, r16]
  congr 1
  congr 1
  omega

theorem r32_w32 (n : Nat) (rest : List Nat) (h : n < 4294967296) :
    r32 (w32 n ++ rest) = some (n, rest) := by
  simp only [w32, List.cons_append, List.nil_append, r32]
  congr 1
  congr 1
  omega

theorem r64_w64 (n : Nat) (rest : List Nat) (h : n < 18446744073709551616) :
    r64 (w64 n ++ rest) = some (n, rest) := by
  simp only [w64, List.cons_append, List.nil_append, r64]
  congr 1
  congr 1
  omega

theorem rTake_exact (bytes rest : List Nat) :
    rTake bytes.length (bytes ++ rest) = some (bytes, rest) := by
  simp [rTake]

theorem rConst_wConst (c : SConst) (rest : List Nat) (h : c.wf) :
    rConst (wConst c ++ rest) = some (c, rest) := by
  cases c with
  | undef => simp [wConst, rConst]
  | num bits =>
      simp only [wConst, List.cons_append, rConst]
      rw [r64_w64 bits rest h]
  | bool b =>
      cases b <;> simp [wConst, rConst]
  | str bytes =>
      obtain ⟨hlen, hbytes⟩ := h
      have hmap : bytes.map (fun b => b % 256) = bytes := by
        have h1 : bytes.map (fun b => b % 256) = bytes.map id := by
          apply List.map_congr_left
          intro b hb
          simp [Nat.mod_eq_of_lt (hbytes b hb)]
        simpa using h1
      simp only [wConst, List.cons_append, List.append_assoc, rConst]
      rw [hmap, r16_w16 bytes.length (bytes ++ rest) hlen]
      simp [rTake_exact]

theorem rConsts_roundtrip (cs : List SConst) (rest : List Nat)
    (h : ∀ c ∈ cs, c.wf) :
    rConsts cs.length ((cs.map wConst).flatten ++ rest) = some (cs, rest) := by
  induction cs with
  | nil => simp [rConsts]
  | cons c cs ih =>
      simp only [List.map_cons, List.flatten_cons, List.length_cons, rConsts,
        List.append_assoc]
      rw [rConst_wConst c _ (h c (by simp))]
      simp only [Option.bind_eq_bind, Option.some_bind]
      rw [ih (fun x hx => h x (by simp [hx]))]
      rfl

theorem byteMap_id (l : List Nat) (h : ∀ b ∈ l, b < 256) :
    l.map (fun b => b % 256) = l := by
  have h1 : l.map (fun b => b % 256) = l.map id := by
    apply List.map_congr_left
    intro b hb
    simp [Nat.mod_eq_of_lt (h b hb)]
  simpa using h1

/-- C2: for every Chunk within the format's bounds (code length below
2^32, at most 65535 constants, string constants at most 65535 UTF-8
bytes, maxSlot at most 65535 — and code bytes actual bytes, as a
`Uint8Array` guarantees), deserializing the serialized binary form
yields the same code bytes, the same constants and the same maxSlot. -/
theorem gos_c2_serialize_roundtrip (ch : SChunk) (maxSlot : Nat)
    (hcode : ch.code.length < 4294967296)
    (hbytes : ∀ b ∈ ch.code, b < 256)
    (hcc : ch.constants.length < 65536)
    (hwf : ∀ c ∈ ch.constants, c.wf)
    (hms : maxSlot < 65536) :
    load (serializeToBinary ch maxSlot) = some (ch, maxSlot) := by
  unfold serializeToBinary load
  simp only [List.cons_append, List.append_assoc, r8, Option.bind_eq_bind,
    Option.some_bind]
  norm_num
  rw [r16_w16 1 _ (by norm_num)]
  simp only [Option.some_bind]
  norm_num
  rw [r32_w32 ch.code.length _ hcode]
  simp only [Option.some_bind]
  rw [show ch.code.map (fun b => b % 256) = ch.code from byteMap_id ch.code hbytes,
    rTake_exact ch.code _]
  simp only [Option.some_bind]
  rw [r16_w16 ch.constants.length _ hcc]
  simp only [Option.some_bind]
  rw [rConsts_roundtrip ch.constants _ hwf]
  simp only [Option.some_bind]
  rw [show w16 maxSlot = w16 maxSlot ++ [] by simp,
    r16_w16 maxSlot [] hms]
  rfl

/-- Witness for C2 at a concrete chunk holding one constant of each
kind. -/
theorem gos_c2_serialize_roundtrip_witness :
    load (serializeToBinary ⟨[0, 5, 21],
      [.num 4613937818241073152, .str [104, 105], .bool true, .undef]⟩ 7)
      = some (⟨[0, 5, 21],
      [.num 4613937818241073152, .str [104, 105], .bool true, .undef]⟩, 7) :=
  gos_c2_serialize_roundtrip _ 7 (by norm_num)
    (by intro b hb; fin_cases hb <;> norm_num)
    (by norm_num)
    (by intro c hc; fin_cases hc <;> simp [SConst.wf])
    (by norm_num)


/-! ## Tree-walking Context (src/src/ast-walking/context.ts) -/

/-- The variable-scope stack of the tree-walking `Context`, innermost
scope at the head.  Only the claim-relevant variable operations are
modelled. -/
structure Context where
  vars : List (List (String × Literal))
deriving Repr

/-- TS `Context.setVar` — first declaration with `let`.  The TS guard is
`vars[last].get(name) === undefined`: it rejects an existing binding
with a diagnostic, but silently accepts one whose stored value happens
to be `undefined`.  (The scope stack is never empty: the constructor
seeds one scope.) -/
def Context.setVar (ctx : Context) (name : String) (v : Literal) :
    Except String Context :=
  match ctx.vars with
  | [] => .error "Context: no scope"
  | scope :: rest =>
      match alGet scope name with
      | none => .ok ⟨((name, v) :: scope) :: rest⟩
      | some .undef => .ok ⟨((name, v) :: scope) :: rest⟩
      | some _ => .error "Context: Variable has already been defined"

/-! ## Lexer (src/src/lexer.ts)

The lexer state is the source (as characters), the cursor `pos` and
the one-token buffer `tok`.  Scanning loops are given explicit fuel,
always called with `src.length + 1`, which strictly dominates every
loop's step count; the fuel-exhausted arms are unreachable. -/

/-- A token: kind plus optional name and literal payload.  The kind
type is the union of the `TokenType` enums of token.ts and lexer.ts
(they differ only in `EVAL` / `VAR_DEL`). -/
structure Token where
  type : TokenType
  name : Option String := none
  value : Option Literal := none
deriving Repr, DecidableEq

/-- Lexer state. -/
structure LexState where
  src : List Char
  pos : Nat
  tok : Token
deriving Repr

/-- TS `isdigit` of utils.ts. -/
def isdigit (c : Char) : Bool := '0' ≤ c && c ≤ '9'

/-- TS `isalpha` of utils.ts: ASCII letters, underscore and backslash. -/
def isalpha (c : Char) : Bool :=
  ('A' ≤ c && c ≤ 'Z') || ('a' ≤ c && c ≤ 'z') || c = '_' || c = '\\'

/-- TS `skipSpaces`: advance past spaces, tabs and newlines. -/
def skipSpacesF (src : List Char) : Nat → Nat → Nat
  | 0, pos => pos
  | f + 1, pos =>
      match src[pos]? with
      | some c =>
          if c = ' ' || c = '\t' || c = '\n' then skipSpacesF src f (pos + 1)
          else pos
      | none => pos

/-- The digit-collecting loop of `parseNumber`: decimal value and new
cursor. -/
def lexDigits (src : List Char) : Nat → Nat → Nat → Nat × Nat
  | 0, pos, acc => (acc, pos)
  | f + 1, pos, acc =>
      match src[pos]? with
      | some c =>
          if isdigit c then lexDigits src f (pos + 1) (acc * 10 + (c.toNat - 48))
          else (acc, pos)
      | none => (acc, pos)

/-- TS `parseNumber`: integer part, then an optional fractional part that
must contain at least one digit. -/
def parseNumber (src : List Char) (pos : Nat) : Except String (ℚ × Nat) :=
  let fuel := src.length + 1
  let (ip, p1) := lexDigits src fuel pos 0
  match src[p1]? with
  | some c =>
      if c = '.' then
        match src[p1 + 1]? with
        | some d =>
            if isdigit d then
              let (fp, p3) := lexDigits src fuel (p1 + 1) 0
              .ok ((ip : ℚ) + (fp : ℚ) / ((10 : ℚ) ^ (p3 - (p1 + 1))), p3)
            else .error "Lexer: Invalid number: expected digit after dot"
        | none => .error "Lexer: Invalid number: expected digit after dot"
      else .ok ((ip : ℚ), p1)
  | none => .ok ((ip : ℚ), p1)

/-- TS `parseAlpha`: collect an identifier. -/
def lexAlpha (src : List Char) : Nat → Nat → List Char → List Char × Nat
  | 0, pos, acc => (acc.reverse, pos)
  | f + 1, pos, acc =>
      match src[pos]? with
      | some c =>
          if isalpha c then lexAlpha src f (pos + 1) (c :: acc)
          else (acc.reverse, pos)
      | none => (acc.reverse, pos)

/-- The string-literal loop: collect until the closing quote; the
end-of-input sentinel is an error. -/
def lexStr (src : List Char) (quote : Char) :
    Nat → Nat → List Char → Except String (String × Nat)
  | 0, _, _ => .error "Lexer: Expected closing quote"
  | f + 1, pos, acc =>
      match src[pos]? with
      | none => .error "Lexer: Expected closing quote"
      | some c =>
          if c = quote then .ok (String.mk acc.reverse, pos + 1)
          else lexStr src quote f (pos + 1) (c :: acc)

/-- The comment loop: advance to the next newline or end of input. -/
def skipComment (src : List Char) : Nat → Nat → Nat
  | 0, pos => pos
  | f + 1, pos =>
      match src[pos]? with
      | some c => if c = '\n' then pos else skipComment src f (pos + 1)
      | none => pos

/-- TS `Lexer.isPrefix`: the buffered token is EOF, `(`, `=` or `:`, or
the character immediately before the cursor is `=`, `(` or `:`. -/
def isPfx (s : LexState) : Bool :=
  let prev := if s.pos > 0 then s.src.getD (s.pos - 1) ' ' else ' '
  s.tok.type = .EOF || s.tok.type = .LPAREN || s.tok.type = .OP_EQ ||
    s.tok.type = .COLON || prev = '=' || prev = '(' || prev = ':'

/-- Keyword table of `nextToken`'s identifier switch.  `out` and `in`
additionally skip trailing spaces before the token is set. -/
def keywordTok (ident : String) : Option TokenType :=
  if ident = "let" then some .VAR_DECL
  else if ident = "out" then some .OUT
  else if ident = "in" then some .IN
  else if ident = "if" then some .IF
  else if ident = "else" then some .ELSE
  else if ident = "while" then some .WHILE
  else if ident = "goto" then some .GOTO
  else if ident = "del" then some .VAR_DEL
  else if ident = "exit" then some .EXIT
  else if ident = "fun" then some .FUNC_DECL
  else if ident = "return" then some .RETURN
  else none

/-- TS `Lexer.nextToken`, arm for arm; the fuel only feeds the
comment-restart recursion. -/
def nextTokenF (src : List Char) : Nat → Nat → Token → Except String LexState
  | 0, _, _ => .error "Lexer: fuel exhausted"
  | f + 1, pos0, tok =>
      let fuel := src.length + 1
      let pos := skipSpacesF src fuel pos0
      match src[pos]? with
      | none => .ok ⟨src, pos, { type := .EOF }⟩
      | some c =>
          if isdigit c then
            match parseNumber src pos with
            | .error e => .error e
            | .ok (q, p1) =>
                .ok ⟨src, p1, { type := .LITERAL, value := some (.num (.fin q)) }⟩
          else if isalpha c then
            let (chars, p1) := lexAlpha src fuel pos []
            let ident := String.mk chars
            if ident = "true" then
              .ok ⟨src, p1, { type := .LITERAL, value := some (.bool true) }⟩
            else if ident = "false" then
              .ok ⟨src, p1, { type := .LITERAL, value := some (.bool false) }⟩
            else if ident = "null" then
              .ok ⟨src, p1, { type := .LITERAL, value := some .undef }⟩
            else
              match keywordTok ident with
              | some t =>
                  if t = .OUT || t = .IN then
                    .ok ⟨src, skipSpacesF src fuel p1, { type := t }⟩
                  else .ok ⟨src, p1, { type := t }⟩
              | none => .ok ⟨src, p1, { type := .IDENT, name := some ident }⟩
          else if c = '"' || c = '\'' then
            match lexStr src c fuel (pos + 1) [] with
            | .error e => .error e
            | .ok (sVal, p1) =>
                .ok ⟨src, p1, { type := .LITERAL, value := some (.str sVal) }⟩
          else if c = '+' then
            if isPfx ⟨src, pos, tok⟩ then
              .ok ⟨src, pos + 1, { type := .OP_POS }⟩
            else if src[pos + 1]? = some '+' then
              .ok ⟨src, pos + 2, { type := .OP_INC }⟩
            else .ok ⟨src, pos + 1, { type := .OP_ADD }⟩
          else if c = '-' then
            if isPfx ⟨src, pos, tok⟩ then
              .ok ⟨src, pos + 1, { type := .OP_NEG }⟩
            else if src[pos + 1]? = some '-' then
              .ok ⟨src, pos + 2, { type := .OP_DEC }⟩
            else .ok ⟨src, pos + 1, { type := .OP_SUB }⟩
          else if c = '*' then .ok ⟨src, pos + 1, { type := .OP_MUL }⟩
          else if c = '/' then .ok ⟨src, pos + 1, { type := .OP_DIV }⟩
          else if c = '(' then .ok ⟨src, pos + 1, { type := .LPAREN }⟩
          else if c = ')' then .ok ⟨src, pos + 1, { type := .RPAREN }⟩
          else if c = '{' then .ok ⟨src, pos + 1, { type := .LBRACE }⟩
          else if c = '}' then .ok ⟨src, pos + 1, { type := .RBRACE }⟩
          else if c = '=' then
            if src[pos + 1]? = some '=' then
              .ok ⟨src, pos + 2, { type := .COMP_EQ }⟩
            else .ok ⟨src, pos + 1, { type := .OP_EQ }⟩
          else if c = '!' then
            if src[pos + 1]? = some '=' then
              .ok ⟨src, pos + 2, { type := .COMP_NE }⟩
            else .ok ⟨src, pos + 1, { type := .LOG_NOT }⟩
          else if c = '>' then
            if src[pos + 1]? = some '=' then
              .ok ⟨src, pos + 2, { type := .COMP_GE }⟩
            else .ok ⟨src, pos + 1, { type := .COMP_GT }⟩
          else if c = '<' then
            if src[pos + 1]? = some '=' then
              .ok ⟨src, pos + 2, { type := .COMP_LE }⟩
            else .ok ⟨src, pos + 1, { type := .COMP_LT }⟩
          else if c = '&' then
            if src[pos + 1]? = some '&' then
              .ok ⟨src, pos + 2, { type := .COMP_AND }⟩
            else .ok ⟨src, pos + 1, { type := .LOG_AND }⟩
          else if c = '|' then
            if src[pos + 1]? = some '|' then
              .ok ⟨src, pos + 2, { type := .COMP_OR }⟩
            else .ok ⟨src, pos + 1, { type := .LOG_OR }⟩
          else if c = '^' then .ok ⟨src, pos + 1, { type := .LOG_XOR }⟩
          else if c = ':' then .ok ⟨src, pos + 1, { type := .COLON }⟩
          else if c = '#' then
            nextTokenF src f (skipComment src fuel pos) tok
          else .error "Lexer: Unknown token"

/-- TS `nextToken` on a lexer state. -/
def nextToken (s : LexState) : Except String LexState :=
  nextTokenF s.src (s.src.length + 1) s.pos s.tok

/-- Drive the lexer to end of input, collecting the token stream. -/
def tokenizeF (src : List Char) : Nat → Nat → Token → Except String (List Token)
  | 0, _, _ => .error "Lexer: fuel exhausted"
  | f + 1, pos, tok =>
      match nextTokenF src (src.length + 1) pos tok with
      | .error e => .error e
      | .ok s1 =>
          match s1.tok.type with
          | .EOF => .ok []
          | _ =>
              match tokenizeF src f s1.pos s1.tok with
              | .error e => .error e
              | .ok rest => .ok (s1.tok :: rest)

/-- Token stream of a source string. -/
def tokenize (input : String) : Except String (List Token) :=
  tokenizeF input.toList (input.length + 1) 0 { type := .EOF }

end Gos

namespace Gos

/-! ## Claim theorems -/

/-- Shared simp bundle for evaluating the compiler on concrete
programs. -/
theorem except_map_ok {α β ε : Type} (f : α → β) (a : α) :
    Except.map f (.ok a : Except ε α) = .ok (f a) := rfl

/-- C1 (code bug): on `true || false` the Optimizer folds `COMP_OR`
with `&&`-semantics and yields `Val false`, while the runtime
or-semantics (`left || right`, as the tree-walking interpreter and the
spec's LOG_OR define it) gives `true`; moreover the Compiler emits no
opcode for `||`, so the compiled bytecode of the unfolded expression
halts with two values on the operand stack instead of one or-result. -/
theorem gos_c1_or_fold_bug :
    fold (.binOp .COMP_OR (.val (.bool true)) (.val (.bool false)))
      = some (.val (.bool false))
    ∧ jsOr (.bool true) (.bool false) = .bool true
    ∧ compileProgram [.binOp .COMP_OR (.val (.bool true)) (.val (.bool false))]
        = .ok ⟨[0, 0, 0, 1, 21], [.bool true, .bool false], 0⟩
    ∧ stepN ⟨[0, 0, 0, 1, 21], [.bool true, .bool false], 0⟩ 3
        (initVM ⟨[0, 0, 0, 1, 21], [.bool true, .bool false], 0⟩ [])
      = .halted ⟨5, [.bool false, .bool true], [], [], 0, [], []⟩ := by
  refine ⟨by simp [fold, jsAnd, truthy], rfl, ?_, rfl⟩
  simp [compileProgram, compileProgramSt, compileSeq, compileExpr, initComp,
    emit, Op.toNat, Except.map, Except.bind, Bind.bind]

/-- C4 (code bug): the `STORE_VAR` handler executes
`slots[baseSlot+slot] = stack.pop()`: it removes the stored value from
the operand stack instead of leaving it in place, here taking the
stack from `[1]` to `[]`. -/
theorem gos_c4_store_var_pops :
    step ⟨[2, 0, 21], [], 0⟩
        ⟨0, [.num (.fin 1)], [.undef], [], 0, [], []⟩
      = .next ⟨2, [], [.num (.fin 1)], [], 0, [], []⟩ := rfl

/-- C5 counterexample: for the program `{ let a = 1 }` the compiler
reports `maxSlot = 0` (the final `nextSlot`, after the block scope
returned its slot), while the high-water mark of `nextSlot` during
compilation was 1. -/
theorem gos_c5_counterexample :
    (compileProgram [.stmt [.varDecl "a" (.val (.num (.fin 1)))]]).map
        (fun r => r.maxSlot) = .ok 0
    ∧ (compileProgramSt [.stmt [.varDecl "a" (.val (.num (.fin 1)))]]).map
        (fun st => st.hiSlot) = .ok 1 := by
  constructor <;>
    simp [compileProgram, compileProgramSt, compileSeq, compileStmtBody,
      compileExpr, initComp, enterScope, exitScope, declVar, emit,
      Except.map, Except.bind, Bind.bind, Op.toNat]

/-- C7 counterexample: the `OP_DIV` arm of `Optimizer.fold` has no
zero test; `1 / 0` is folded to `Val Infinity` — a `Val`, not an
unfolded `BinOp` as the claim states. -/
theorem gos_c7_counterexample :
    fold (.binOp .OP_DIV (.val (.num (.fin 1))) (.val (.num (.fin 0))))
      = some (.val (.num .posInf)) := by
  simp [fold, jsDiv, toNumber, JsNum.div]

/-- C7 amended: folding a division whose operands are numeric literals
never crashes and always produces a `Val` (JS division semantics:
Infinity, -Infinity or NaN on a zero divisor), even when the right
operand is the literal 0. -/
theorem gos_c7_amended (a : JsNum) :
    ∃ v : Literal,
      fold (.binOp .OP_DIV (.val (.num a)) (.val (.num (.fin 0))))
        = some (.val v) := by
  refine ⟨jsDiv (.num a) (.num (.fin 0)), ?_⟩
  simp [fold]

/-- C8 counterexample: `Compiler.declVar` has no duplicate check, so
compiling `let x = 1  let x = 2` succeeds: the second declaration is
silently accepted, consuming a fresh slot (maxSlot 2) and rebinding
the name — no "Compiler" diagnostic is raised. -/
theorem gos_c8_counterexample :
    compileProgram [.varDecl "x" (.val (.num (.fin 1))),
                    .varDecl "x" (.val (.num (.fin 2)))]
      = .ok ⟨[0, 0, 2, 0, 22, 0, 1, 2, 1, 22, 21],
             [.num (.fin 1), .num (.fin 2)], 2⟩ := by
  simp [compileProgram, compileProgramSt, compileSeq, compileExpr, initComp,
    declVar, emit, Except.map, Except.bind, Bind.bind, Op.toNat]

/-- C8 amended: the tree-walking `Context.setVar` does reject a
re-declaration in the innermost scope with a diagnostic (whenever the
stored value is not `undefined`), but the bytecode Compiler silently
accepts any re-declaration, allocating a fresh slot. -/
theorem gos_c8_amended (scope : List (String × Literal))
    (rest : List (List (String × Literal))) (name : String)
    (u w : Literal) (hlook : alGet scope name = some u) (hu : u ≠ .undef) :
    Context.setVar ⟨scope :: rest⟩ name w
      = .error "Context: Variable has already been defined"
    ∧ ∀ v1 v2 : Literal,
        compileProgram [.varDecl name (.val v1), .varDecl name (.val v2)]
          = .ok ⟨[0, 0, 2, 0, 22, 0, 1, 2, 1, 22, 21], [v1, v2], 2⟩ := by
  constructor
  · cases u with
    | undef => exact absurd rfl hu
    | num n => simp [Context.setVar, hlook]
    | str s => simp [Context.setVar, hlook]
    | bool b => simp [Context.setVar, hlook]
  · intro v1 v2
    simp [compileProgram, compileProgramSt, compileSeq, compileExpr, initComp,
      declVar, emit, Except.map, Except.bind, Bind.bind, Op.toNat]

/-- Witness for C8 at a scope binding `x` to `1`. -/
theorem gos_c8_amended_witness :
    Context.setVar ⟨[[("x", .num (.fin 1))]]⟩ "x" (.num (.fin 2))
      = .error "Context: Variable has already been defined" :=
  (gos_c8_amended [("x", .num (.fin 1))] [] "x" (.num (.fin 1))
    (.num (.fin 2)) (by simp [alGet]) (by simp)).1

/-- C9: for `&&`, `||`, `&`, `|` and `^` the `BinOp` arm of
`Compiler.compileExpr` compiles the two operands and falls through the
operator switch without emitting any opcode, so compiling such a node
equals compiling its operands in sequence, and the bytecode of e.g.
`Val a ⟨op⟩ Val b` halts with the two operand values still on the
operand stack. -/
theorem gos_c9_no_opcode (op : TokenType)
    (hop : op = .COMP_AND ∨ op = .COMP_OR ∨ op = .LOG_AND ∨
      op = .LOG_OR ∨ op = .LOG_XOR)
    (st : CompState) (l r : Expression) :
    compileExpr st (.binOp op l r)
      = (compileExpr st l).bind (fun st1 => compileExpr st1 r)
    ∧ ∀ a b : Literal,
        compileProgram [.binOp op (.val a) (.val b)]
          = .ok ⟨[0, 0, 0, 1, 21], [a, b], 0⟩
        ∧ stepN ⟨[0, 0, 0, 1, 21], [a, b], 0⟩ 3
            (initVM ⟨[0, 0, 0, 1, 21], [a, b], 0⟩ [])
          = .halted ⟨5, [b, a], [], [], 0, [], []⟩ := by
  refine ⟨?_, ?_⟩
  · rcases hop with rfl | rfl | rfl | rfl | rfl <;>
      (simp only [compileExpr, Except.bind, Bind.bind]
       cases hl : compileExpr st l with
       | error e => simp [hl]
       | ok st1 =>
           simp only [hl]
           cases hr : compileExpr st1 r with
           | error e => simp [hr]
           | ok st2 => simp [hr])
  · intro a b
    refine ⟨?_, rfl⟩
    rcases hop with rfl | rfl | rfl | rfl | rfl <;>
      simp [compileProgram, compileProgramSt, compileSeq, compileExpr,
        initComp, emit, Except.map, Except.bind, Bind.bind, Op.toNat]

/-- Witness for C9 at `||` with literal operands. -/
theorem gos_c9_no_opcode_witness :
    compileExpr initComp
        (.binOp .COMP_OR (.val (.bool true)) (.val (.bool false)))
      = (compileExpr initComp (.val (.bool true))).bind
          (fun st1 => compileExpr st1 (.val (.bool false))) :=
  (gos_c9_no_opcode .COMP_OR (Or.inr (Or.inl rfl)) initComp
    (.val (.bool true)) (.val (.bool false))).1

/-- C10 counterexample: in `1==+2` the previous significant context of
the `+` is the token `==` — not EOF, `(`, `=` or `:` — yet the lexer
emits the prefix token `OP_POS` (its `isPrefix` also consults the raw
preceding character, here the `=` of `==`), where the claim requires
the infix token `OP_ADD`. -/
theorem gos_c10_counterexample :
    tokenize "1==+2" = .ok
      [{ type := .LITERAL, value := some (.num (.fin 1)) },
       { type := .COMP_EQ },
       { type := .OP_POS },
       { type := .LITERAL, value := some (.num (.fin 2)) }] := rfl

/-- C10 amended: on a `+` or `-` the lexer emits the prefix token
POS/NEG exactly when the buffered previous token is EOF, `(`, `=`
(assignment) or `:`, or the character immediately before the cursor is
`=`, `(` or `:` (hence also directly after an unspaced `==`, `!=`,
`>=`, `<=`); otherwise it emits INC/DEC exactly when the very next
character doubles the operator, and the infix ADD/SUB else. -/
theorem gos_c10_amended (s : LexState) (c : Char)
    (hc : s.src[s.pos]? = some c) (hpm : c = '+' ∨ c = '-') :
    ∃ s', nextToken s = .ok s' ∧
      s'.tok.type =
        (if isPfx s then (if c = '+' then TokenType.OP_POS else .OP_NEG)
         else if s.src[s.pos + 1]? = some c then
           (if c = '+' then .OP_INC else .OP_DEC)
         else (if c = '+' then .OP_ADD else .OP_SUB)) := by
  have hps : (⟨s.src, s.pos, s.tok⟩ : LexState) = s := rfl
  rcases hpm with rfl | rfl
  · have hskip : skipSpacesF s.src (s.src.length + 1) s.pos = s.pos := by
      simp [skipSpacesF, hc]
    by_cases hp : isPfx s
    · refine ⟨⟨s.src, s.pos + 1, { type := .OP_POS }⟩, ?_, by simp [hp]⟩
      simp [nextToken, nextTokenF, hskip, hc, hps, hp, isdigit, isalpha]
    · by_cases h2 : s.src[s.pos + 1]? = some '+'
      · refine ⟨⟨s.src, s.pos + 2, { type := .OP_INC }⟩, ?_, by simp [hp, h2]⟩
        simp [nextToken, nextTokenF, hskip, hc, hps, hp, h2, isdigit, isalpha]
      · refine ⟨⟨s.src, s.pos + 1, { type := .OP_ADD }⟩, ?_, by simp [hp, h2]⟩
        simp [nextToken, nextTokenF, hskip, hc, hps, hp, h2, isdigit, isalpha]
  · have hskip : skipSpacesF s.src (s.src.length + 1) s.pos = s.pos := by
      simp [skipSpacesF, hc]
    by_cases hp : isPfx s
    · refine ⟨⟨s.src, s.pos + 1, { type := .OP_NEG }⟩, ?_, by simp [hp]⟩
      simp [nextToken, nextTokenF, hskip, hc, hps, hp, isdigit, isalpha]
    · by_cases h2 : s.src[s.pos + 1]? = some '-'
      · refine ⟨⟨s.src, s.pos + 2, { type := .OP_DEC }⟩, ?_, by simp [hp, h2]⟩
        simp [nextToken, nextTokenF, hskip, hc, hps, hp, h2, isdigit, isalpha]
      · refine ⟨⟨s.src, s.pos + 1, { type := .OP_SUB }⟩, ?_, by simp [hp, h2]⟩
        simp [nextToken, nextTokenF, hskip, hc, hps, hp, h2, isdigit, isalpha]

/-- Witness for C10: lexing the `+` of `1==+2` from the state just
after the `==` token. -/
theorem gos_c10_amended_witness :
    ∃ s', nextToken ⟨"1==+2".toList, 3, { type := .COMP_EQ }⟩ = .ok s' ∧
      s'.tok.type =
        (if isPfx ⟨"1==+2".toList, 3, { type := .COMP_EQ }⟩
         then (if '+' = '+' then TokenType.OP_POS else .OP_NEG)
         else if "1==+2".toList[3 + 1]? = some '+' then
           (if '+' = '+' then .OP_INC else .OP_DEC)
         else (if '+' = '+' then .OP_ADD else .OP_SUB)) :=
  gos_c10_amended ⟨"1==+2".toList, 3, { type := .COMP_EQ }⟩ '+'
    (by rfl) (Or.inl rfl)

/-- C6: executing CALL on a stack holding at least `argCount` values
pushes the frame `{returnIp := ip-after-operands, baseSlot}` on the
call stack, moves exactly the top `argCount` stack values onto the end
of the slot array in their left-to-right (bottom-to-top) order as the
new frame's locals, sets the base slot to the index of the first new
local, and jumps to the encoded target. -/
theorem gos_c6_call (ch : CompileResult) (s : VMState) (high low argc : Nat)
    (hop : ch.code[s.ip]? = some Op.CALL.toNat)
    (hhigh : ch.code.getD (s.ip + 1) 0 = high)
    (hlow : ch.code.getD (s.ip + 2) 0 = low)
    (hargc : ch.code.getD (s.ip + 3) 0 = argc)
    (hstack : argc ≤ s.stack.length) :
    step ch s = .next
      { s with
        ip := Nat.lor (Nat.shiftLeft high 8) low
        stack := s.stack.drop argc
        slots := s.slots ++ (s.stack.take argc).reverse
        callStack := ⟨s.ip + 4, s.currBaseSlot⟩ :: s.callStack
        currBaseSlot := s.slots.length } := by
  have hrepl : argc - s.stack.length = 0 := Nat.sub_eq_zero_of_le hstack
  simp only [List.getD_eq_getElem?_getD] at hhigh hlow hargc
  simp [step, List.get?_eq_getElem?, hop, hhigh, hlow, hargc, Op.decode,
    Op.toNat, hrepl]

/-- Witness for C6: a CALL of target 5 with two arguments on a
three-value stack. -/
theorem gos_c6_call_witness :
    step ⟨[27, 0, 5, 2, 21], [], 0⟩
        ⟨0, [.num (.fin 2), .num (.fin 1), .bool true],
         [.str "g"], [], 0, [], []⟩
      = .next
      { ip := 5
        stack := [.bool true]
        slots := [.str "g", .num (.fin 1), .num (.fin 2)]
        callStack := [⟨4, 0⟩]
        currBaseSlot := 1
        inputs := []
        output := [] } := by
  have h := gos_c6_call ⟨[27, 0, 5, 2, 21], [], 0⟩
    ⟨0, [.num (.fin 2), .num (.fin 1), .bool true], [.str "g"], [], 0, [], []⟩
    0 5 2 rfl rfl rfl rfl (by norm_num)
  simpa using h

/-! ### Slot accounting for C5 -/

/-- The compiler's slot counter never exceeds the recorded high-water
mark. -/
def slotInv (st : CompState) : Prop := st.nextSlot ≤ st.hiSlot

theorem slotInv_emit {st : CompState} (h : slotInv st) (bs : List Nat) :
    slotInv (emit st bs) := h

theorem slotInv_enter {st : CompState} (h : slotInv st) :
    slotInv (enterScope st) := h

theorem slotInv_patch {st : CompState} (h : slotInv st) (pos addr : Nat) :
    slotInv (patchJumpAddr st pos addr) := h

theorem slotInv_setFunc {st : CompState} (h : slotInv st) (name : String)
    (f : FuncInfo) : slotInv (setFunc st name f) := by
  unfold setFunc
  cases st.funcs with
  | nil => exact h
  | cons m rest => exact h

theorem slotInv_exit {st : CompState} (h : slotInv st) :
    slotInv (exitScope st) := by
  unfold exitScope
  cases st.scopes with
  | nil => exact h
  | cons sc rest =>
      simp only [slotInv] at h ⊢
      omega

theorem slotInv_declVar (st : CompState) (name : String) :
    slotInv (declVar st name).2 := by
  unfold declVar slotInv
  exact le_max_right _ _

theorem slotInv_declParams (st : CompState) (ps : List String)
    (h : slotInv st) : slotInv (declParams st ps) := by
  induction ps generalizing st with
  | nil => exact h
  | cons p ps ih =>
      simp only [declParams, List.foldl_cons] at *
      exact ih (declVar st p).2 (slotInv_declVar st p)

/-- Every successful compilation step preserves the slot invariant:
the proof walks `compileExpr`'s recursion. -/
theorem compileExpr_slotInv (st0 : CompState) (e0 : Expression) :
    ∀ st', compileExpr st0 e0 = .ok st' → slotInv st0 → slotInv st' := by
  refine compileExpr.induct
    (fun st e => ∀ st', compileExpr st e = .ok st' → slotInv st → slotInv st')
    (fun st es => ∀ st', compileSeq st es = .ok st' → slotInv st → slotInv st')
    (fun st e es =>
      ∀ st', compileStmtBody st e es = .ok st' → slotInv st → slotInv st')
    ?_ ?_ ?_ ?_ ?_ ?_ ?_ ?_ ?_ ?_ ?_ ?_ ?_ ?_ ?_ ?_ ?_ ?_ ?_ ?_ ?_ ?_ ?_
    ?_ ?_ ?_ ?_ st0 e0
  -- val
  · intro st v st' h hst
    simp only [compileExpr] at h
    injection h with h
    subst h
    exact hst
  -- var, undefined
  · intro st name hnone st' h hst
    simp only [compileExpr, hnone] at h
    exact Except.noConfusion h
  -- var, found
  · intro st name slot hsome st' h hst
    simp only [compileExpr, hsome] at h
    injection h with h
    subst h
    exact hst
  -- varDecl
  · intro st name value ih st' h hst
    simp only [compileExpr, Except.bind, Bind.bind] at h
    split at h
    · exact Except.noConfusion h
    · rename_i st1 hv
      injection h with h
      subst h
      exact slotInv_emit (slotInv_declVar st1 name) _
  -- varMod
  · intro st name value ih st' h hst
    simp only [compileExpr, Except.bind, Bind.bind] at h
    split at h
    · exact Except.noConfusion h
    · rename_i st1 hv
      split at h
      · exact Except.noConfusion h
      · rename_i slot hslot
        injection h with h
        subst h
        exact slotInv_emit (ih st1 hv hst) _
  -- binOp
  · intro st op l r ihl ihr st' h hst
    simp only [compileExpr, Except.bind, Bind.bind] at h
    split at h
    · exact Except.noConfusion h
    · rename_i st1 hl
      split at h
      · exact Except.noConfusion h
      · rename_i st2 hr
        have h2 := ihr st1 st2 hr (ihl st1 hl hst)
        split at h <;>
          (injection h with h; subst h; first | exact slotInv_emit h2 _ | exact h2)
  -- unaryOp
  · intro st op a ih st' h hst
    simp only [compileExpr, Except.bind, Bind.bind] at h
    split at h
    · exact Except.noConfusion h
    · rename_i st1 ha
      have h1 := ih st1 ha hst
      split at h <;> (injection h with h; subst h; exact slotInv_emit h1 _)
  -- out
  · intro st value ih st' h hst
    simp only [compileExpr, Except.bind, Bind.bind] at h
    split at h
    · exact Except.noConfusion h
    · rename_i st1 hv
      injection h with h
      subst h
      exact slotInv_emit (ih st1 hv hst) _
  -- in
  · intro st name slot st2 hd st' h hst
    simp only [compileExpr, hd] at h
    injection h with h
    subst h
    refine slotInv_emit ?_ _
    have h2 := slotInv_declVar st name
    rw [hd] at h2
    exact h2
  -- stmt []
  · intro st st' h hst
    simp only [compileExpr] at h
    injection h with h
    subst h
    refine slotInv_exit (slotInv_emit ?_ _)
    exact hst
  -- stmt (e :: es)
  · intro st e es ih st' h hst
    simp only [compileExpr, Except.bind, Bind.bind] at h
    split at h
    · exact Except.noConfusion h
    · rename_i st2 hb
      injection h with h
      subst h
      exact slotInv_exit (ih st2 hb (slotInv_enter hst))
  -- if
  · intro st cond body els ihc ihb ihe st' h hst
    simp only [compileExpr, Except.bind, Bind.bind] at h
    split at h
    · exact Except.noConfusion h
    · rename_i st1 hc
      have h1 := ihc st1 hc hst
      split at h
      · exact Except.noConfusion h
      · rename_i st3 hb
        have h3 : slotInv st3 :=
          ihb st1 st3 hb (slotInv_enter (slotInv_emit h1 _))
        split at h
        · injection h with h
          subst h
          exact slotInv_patch (slotInv_exit h3) _ _
        · rename_i e
          split at h
          · exact Except.noConfusion h
          · rename_i st7 he
            injection h with h
            subst h
            have h7 : slotInv st7 :=
              ihe st1 st3 st7 he
                (slotInv_enter
                  (slotInv_patch (slotInv_emit (slotInv_exit h3) _) _ _))
            exact slotInv_patch (slotInv_exit h7) _ _
  -- while
  · intro st cond body st1 ihc ihb st' h hst
    simp only [compileExpr, Except.bind, Bind.bind] at h
    split at h
    · exact Except.noConfusion h
    · rename_i st2 hc
      have h2 := ihc st2 hc (slotInv_enter hst)
      split at h
      · exact Except.noConfusion h
      · rename_i st4 hb
        injection h with h
        subst h
        exact slotInv_exit
          (slotInv_patch (slotInv_emit (ihb st2 st4 hb (slotInv_emit h2 _)) _) _ _)
  -- funcDecl, duplicate
  · intro st name params body st1 f hdup st' h hst
    simp only [compileExpr, Except.bind, Bind.bind] at h
    split at h
    · exact Except.noConfusion h
    · rename_i heq
      exact Option.noConfusion (hdup.symm.trans heq)
  -- funcDecl
  · intro st name params body st1 funcAddr hnew st2 st3 ih st' h hst
    simp only [compileExpr, Except.bind, Bind.bind] at h
    split at h
    · rename_i f heq
      exact Option.noConfusion (heq.symm.trans hnew)
    · rename_i heq
      split at h
      · exact Except.noConfusion h
      · rename_i st4 hb
        injection h with h
        subst h
        have h4 : slotInv st4 :=
          ih st4 hb
            (slotInv_declParams _ params
              (slotInv_enter (slotInv_setFunc (slotInv_emit hst _) _ _)))
        exact slotInv_patch (slotInv_exit (slotInv_emit h4 _)) _ _
  -- funcCall
  · intro st name args ih st' h hst
    simp only [compileExpr, Except.bind, Bind.bind] at h
    split at h
    · exact Except.noConfusion h
    · rename_i st1 ha
      have h1 := ih st1 ha hst
      split at h
      · exact Except.noConfusion h
      · rename_i f hf
        split at h
        · exact Except.noConfusion h
        · injection h with h
          subst h
          exact slotInv_emit h1 _
  -- exit
  · intro st status ih st' h hst
    simp only [compileExpr, Except.bind, Bind.bind] at h
    split at h
    · exact Except.noConfusion h
    · rename_i st1 hv
      injection h with h
      subst h
      exact slotInv_emit (ih st1 hv hst) _
  -- return (some v)
  · intro st v ih st' h hst
    simp only [compileExpr, Except.bind, Bind.bind] at h
    split at h
    · exact Except.noConfusion h
    · rename_i st1 hv
      injection h with h
      subst h
      exact slotInv_emit (ih st1 hv hst) _
  -- return none
  · intro st st' h hst
    simp only [compileExpr] at h
    injection h with h
    subst h
    exact hst
  -- eval
  · intro st code ih st' h hst
    simp only [compileExpr, Except.bind, Bind.bind] at h
    split at h
    · exact Except.noConfusion h
    · rename_i st1 hv
      injection h with h
      subst h
      exact slotInv_emit (ih st1 hv hst) _
  -- label
  · intro st name st' h hst
    simp only [compileExpr] at h
    injection h with h
    subst h
    exact hst
  -- goto, unresolved
  · intro st name hnone st' h hst
    simp only [compileExpr, hnone] at h
    exact Except.noConfusion h
  -- goto
  · intro st name hl hsome st' h hst
    simp only [compileExpr, hsome] at h
    injection h with h
    subst h
    exact hst
  -- seq []
  · intro st st' h hst
    simp only [compileSeq] at h
    injection h with h
    subst h
    exact hst
  -- seq (e :: es)
  · intro st e es ihe ihs st' h hst
    simp only [compileSeq, Except.bind, Bind.bind] at h
    split at h
    · exact Except.noConfusion h
    · rename_i st1 he
      exact ihs st1 st' h (ihe st1 he hst)
  -- stmt body, last
  · intro st e ih st' h hst
    simp only [compileStmtBody] at h
    exact ih st' h hst
  -- stmt body, cons
  · intro st e e2 es ihe ihs st' h hst
    simp only [compileStmtBody, Except.bind, Bind.bind] at h
    split at h
    · exact Except.noConfusion h
    · rename_i st1 he
      exact ihs st1 st' h (slotInv_emit (ihe st1 he hst) _)

theorem compileSeq_slotInv (es : List Expression) :
    ∀ st st', compileSeq st es = .ok st' → slotInv st → slotInv st' := by
  induction es with
  | nil =>
      intro st st' h hst
      simp only [compileSeq] at h
      injection h with h
      subst h
      exact hst
  | cons e es ih =>
      intro st st' h hst
      simp only [compileSeq, Except.bind, Bind.bind] at h
      split at h
      · exact Except.noConfusion h
      · rename_i st1 he
        exact ih st1 st' h (compileExpr_slotInv st e st1 he hst)

/-- C5 amended: the maxSlot `Compiler.compile` reports is the final
value of `nextSlot` — the number of slots of the scopes never exited —
which is at most, and (per the counterexample) in general strictly
below, the high-water mark of `nextSlot` observed during
compilation. -/
theorem gos_c5_amended (p : Program) (st : CompState) (r : CompileResult)
    (hst : compileProgramSt p = .ok st) (hr : compileProgram p = .ok r) :
    r.maxSlot = st.nextSlot ∧ st.nextSlot ≤ st.hiSlot := by
  constructor
  · unfold compileProgram at hr
    rw [hst] at hr
    injection hr with hr
    rw [← hr]
  · unfold compileProgramSt at hst
    simp only [Except.bind, Bind.bind] at hst
    split at hst
    · exact Except.noConfusion hst
    · rename_i st1 hseq
      injection hst with hst
      subst hst
      exact compileSeq_slotInv p initComp st1 hseq (Nat.le_refl 0)

/-- Witness for C5 amended at the counterexample program
`{ let a = 1 }`. -/
theorem gos_c5_amended_witness :
    (⟨[0, 0, 2, 0, 22, 21], [.num (.fin 1)], 0⟩ : CompileResult).maxSlot
        = (⟨[.num (.fin 1)], [0, 0, 2, 0, 22, 21], [⟨[], 0⟩], 0, [[]], [], 1⟩
            : CompState).nextSlot
    ∧ (⟨[.num (.fin 1)], [0, 0, 2, 0, 22, 21], [⟨[], 0⟩], 0, [[]], [], 1⟩
          : CompState).nextSlot
        ≤ (⟨[.num (.fin 1)], [0, 0, 2, 0, 22, 21], [⟨[], 0⟩], 0, [[]], [], 1⟩
            : CompState).hiSlot :=
  gos_c5_amended [.stmt [.varDecl "a" (.val (.num (.fin 1)))]] _ _
    (by simp [compileProgramSt, compileSeq, compileStmtBody, compileExpr,
      initComp, enterScope, exitScope, declVar, emit, Except.bind, Bind.bind,
      Op.toNat])
    (by simp [compileProgram, compileProgramSt, compileSeq, compileStmtBody,
      compileExpr, initComp, enterScope, exitScope, declVar, emit,
      Except.map, Except.bind, Bind.bind, Op.toNat])

/-! ### Pure literal expressions for C3 -/

/-- Expressions built purely from literals and the ten operators for
which the `BinOp` arm emits an opcode, plus unary negation and logical
not — the "expression core" whose compiled code is straight-line. -/
inductive PureLit : Expression → Prop where
  | val (v : Literal) : PureLit (.val v)
  | bin (op : TokenType) (l r : Expression)
      (hop : op = .OP_ADD ∨ op = .OP_SUB ∨ op = .OP_MUL ∨ op = .OP_DIV ∨
        op = .COMP_EQ ∨ op = .COMP_NE ∨ op = .COMP_GT ∨ op = .COMP_GE ∨
        op = .COMP_LT ∨ op = .COMP_LE)
      (hl : PureLit l) (hr : PureLit r) : PureLit (.binOp op l r)
  | neg (e : Expression) (he : PureLit e) : PureLit (.unaryOp .OP_NEG e)
  | lognot (e : Expression) (he : PureLit e) : PureLit (.unaryOp .LOG_NOT e)

/-- The runtime meaning of the ten emitted binary operators (the same
functions the VM handlers use). -/
def binSem (op : TokenType) (a b : Literal) : Literal :=
  match op with
  | .OP_ADD => jsAdd a b
  | .OP_SUB => jsSub a b
  | .OP_MUL => jsMul a b
  | .OP_DIV => jsDiv a b
  | .COMP_EQ => .bool (jsStrictEq a b)
  | .COMP_NE => .bool (!jsStrictEq a b)
  | .COMP_GT => .bool (jsGt a b)
  | .COMP_GE => .bool (jsGe a b)
  | .COMP_LT => .bool (jsLt a b)
  | .COMP_LE => .bool (jsLe a b)
  | _ => (.undef : Literal)

/-- The opcode the `BinOp` arm emits for each of the ten operators. -/
def binByte (op : TokenType) : Nat :=
  match op with
  | .OP_ADD => Op.ADD.toNat
  | .OP_SUB => Op.SUB.toNat
  | .OP_MUL => Op.MUL.toNat
  | .OP_DIV => Op.DIV.toNat
  | .COMP_EQ => Op.EQ.toNat
  | .COMP_NE => Op.NE.toNat
  | .COMP_GT => Op.GT.toNat
  | .COMP_GE => Op.GE.toNat
  | .COMP_LT => Op.LT.toNat
  | .COMP_LE => Op.LE.toNat
  | _ => 0

/-- Denotation of a pure literal expression. -/
def evalPure : Expression → Literal
  | .val v => v
  | .binOp op l r => binSem op (evalPure l) (evalPure r)
  | .unaryOp .OP_NEG e => jsNeg (evalPure e)
  | .unaryOp .LOG_NOT e => jsNot (evalPure e)
  | _ => (.undef : Literal)

/-- A code segment sits at position `ip` of the instruction stream. -/
def codeAt (code : List Nat) (ip : Nat) (seg : List Nat) : Prop :=
  ∃ pre post, code = pre ++ seg ++ post ∧ pre.length = ip

theorem codeAt_get {code : List Nat} {ip : Nat} {seg : List Nat}
    (h : codeAt code ip seg) (i : Nat) (hi : i < seg.length) :
    code[ip + i]? = seg[i]? := by
  obtain ⟨pre, post, rfl, hlen⟩ := h
  subst hlen
  rw [List.append_assoc, List.getElem?_append_right (by omega),
    Nat.add_sub_cancel_left]
  simp [List.getElem?_append, hi]

theorem codeAt_append {code : List Nat} {ip : Nat} {s1 s2 : List Nat}
    (h : codeAt code ip (s1 ++ s2)) :
    codeAt code ip s1 ∧ codeAt code (ip + s1.length) s2 := by
  obtain ⟨pre, post, hc, hlen⟩ := h
  constructor
  · exact ⟨pre, s2 ++ post, by simp [hc], hlen⟩
  · exact ⟨pre ++ s1, post, by simp [hc], by simp [hlen, Nat.add_comm]⟩

theorem getD_append_len {α : Type} (l : List α) (v : α) (ext : List α)
    (d : α) : (l ++ v :: ext).getD l.length d = v := by
  rw [List.getD_eq_getElem?_getD, List.getElem?_append_right (Nat.le_refl _)]
  simp

theorem stepN_add (ch : CompileResult) (m n : Nat) (s t : VMState)
    (h1 : stepN ch m s = .next t) :
    stepN ch (m + n) s = stepN ch n t := by
  induction m generalizing s with
  | zero =>
      simp only [stepN] at h1
      injection h1 with h1
      subst h1
      rw [Nat.zero_add]
  | succ m ih =>
      rw [Nat.succ_add]
      simp only [stepN] at h1 ⊢
      cases hs : step ch s with
      | next u => rw [hs] at h1; exact ih u h1
      | halted u => rw [hs] at h1; exact StepRes.noConfusion h1
      | exited v u => rw [hs] at h1; exact StepRes.noConfusion h1
      | vmerr m2 => rw [hs] at h1; exact StepRes.noConfusion h1

/-- Compiling a pure literal expression appends straight-line code and
constants only, and running that code from any aligned VM state pushes
exactly the expression's value (one value) onto the operand stack. -/
theorem pureCorrect (e : Expression) (he : PureLit e) :
    ∀ st : CompState, ∃ δ κ,
      compileExpr st e
        = .ok { st with codes := st.codes ++ δ, constants := st.constants ++ κ }
      ∧ ∀ (ch : CompileResult) (s : VMState) (ext : List Literal),
          codeAt ch.code s.ip δ →
          ch.constants = st.constants ++ κ ++ ext →
          ∃ n, stepN ch n s
            = .next { s with
                      ip := s.ip + δ.length
                      stack := evalPure e :: s.stack } := by
  induction he with
  | val v =>
      intro st
      refine ⟨[Op.LOAD_CONST.toNat, st.constants.length], [v], ?_, ?_⟩
      · simp [compileExpr, emit]
      · intro ch s ext hcode hconst
        have h0 := codeAt_get hcode 0 (by simp)
        have h1 := codeAt_get hcode 1 (by simp)
        simp only [Nat.add_zero] at h0
        simp only [List.getElem?_cons_zero, List.getElem?_cons_succ] at h0 h1
        refine ⟨1, ?_⟩
        simp only [stepN, step, List.get?_eq_getElem?, h0, h1, Op.toNat,
          Op.decode]
        rw [hconst]
        rw [List.append_assoc, List.singleton_append]
        rw [show (st.constants ++ v :: ext).getD st.constants.length .undef = v
          from getD_append_len st.constants v ext .undef]
        simp [evalPure]
  | bin op l r hop hl hr ihl ihr =>
      intro st
      obtain ⟨δl, κl, hcl, runl⟩ := ihl st
      obtain ⟨δr, κr, hcr, runr⟩ :=
        ihr { st with codes := st.codes ++ δl, constants := st.constants ++ κl }
      refine ⟨δl ++ (δr ++ [binByte op]), κl ++ κr, ?_, ?_⟩
      · rcases hop with rfl|rfl|rfl|rfl|rfl|rfl|rfl|rfl|rfl|rfl <;>
          simp [compileExpr, Except.bind, Bind.bind, hcl, hcr, emit, binByte,
            List.append_assoc]
      · intro ch s ext hcode hconst
        obtain ⟨hc1, hc2'⟩ := codeAt_append hcode
        obtain ⟨hc2, hc3⟩ := codeAt_append hc2'
        obtain ⟨n1, e1⟩ := runl ch s (κr ++ ext) hc1
          (by rw [hconst]; simp [List.append_assoc])
        obtain ⟨n2, e2⟩ := runr ch
          { s with ip := s.ip + δl.length, stack := evalPure l :: s.stack }
          ext hc2 (by rw [hconst]; simp [List.append_assoc])
        have hb0 := codeAt_get hc3 0 (by simp)
        simp only [Nat.add_zero, List.getElem?_cons_zero] at hb0
        have hstep : step ch
            { s with
              ip := s.ip + δl.length + δr.length
              stack := evalPure r :: evalPure l :: s.stack }
            = .next { s with
              ip := s.ip + δl.length + δr.length + 1
              stack := binSem op (evalPure l) (evalPure r) :: s.stack } := by
          rcases hop with rfl|rfl|rfl|rfl|rfl|rfl|rfl|rfl|rfl|rfl <;>
            simp [step, List.get?_eq_getElem?, hb0, binByte, Op.toNat,
              Op.decode, popOr, binSem]
        refine ⟨n1 + (n2 + 1), ?_⟩
        rw [stepN_add ch n1 (n2 + 1) s _ e1]
        rw [stepN_add ch n2 1 _ _ e2]
        simp only [stepN]
        rw [hstep]
        simp [evalPure, List.length_append, Nat.add_assoc]
  | neg e he ih =>
      intro st
      obtain ⟨δ, κ, hce, rune⟩ := ih st
      refine ⟨δ ++ [Op.NEG.toNat], κ, ?_, ?_⟩
      · simp [compileExpr, Except.bind, Bind.bind, hce, emit, List.append_assoc]
      · intro ch s ext hcode hconst
        obtain ⟨hc1, hc2⟩ := codeAt_append hcode
        obtain ⟨n1, e1⟩ := rune ch s ext hc1 hconst
        have hb0 := codeAt_get hc2 0 (by simp)
        simp only [Nat.add_zero, List.getElem?_cons_zero] at hb0
        refine ⟨n1 + 1, ?_⟩
        rw [stepN_add ch n1 1 s _ e1]
        simp only [stepN]
        rw [show step ch
            { s with ip := s.ip + δ.length, stack := evalPure e :: s.stack }
            = .next { s with
              ip := s.ip + δ.length + 1
              stack := jsNeg (evalPure e) :: s.stack } by
          simp [step, List.get?_eq_getElem?, hb0, Op.toNat, Op.decode, popOr]]
        simp [evalPure, List.length_append, Nat.add_assoc]
  | lognot e he ih =>
      intro st
      obtain ⟨δ, κ, hce, rune⟩ := ih st
      refine ⟨δ ++ [Op.LOG_NOT.toNat], κ, ?_, ?_⟩
      · simp [compileExpr, Except.bind, Bind.bind, hce, emit, List.append_assoc]
      · intro ch s ext hcode hconst
        obtain ⟨hc1, hc2⟩ := codeAt_append hcode
        obtain ⟨n1, e1⟩ := rune ch s ext hc1 hconst
        have hb0 := codeAt_get hc2 0 (by simp)
        simp only [Nat.add_zero, List.getElem?_cons_zero] at hb0
        refine ⟨n1 + 1, ?_⟩
        rw [stepN_add ch n1 1 s _ e1]
        simp only [stepN]
        rw [show step ch
            { s with ip := s.ip + δ.length, stack := evalPure e :: s.stack }
            = .next { s with
              ip := s.ip + δ.length + 1
              stack := jsNot (evalPure e) :: s.stack } by
          simp [step, List.get?_eq_getElem?, hb0, Op.toNat, Op.decode, popOr]]
        simp [evalPure, List.length_append, Nat.add_assoc]

/-- C3 counterexample: `let x = 1` compiled in isolation runs to HALT
with an empty operand stack: a net stack change of 0, not the 1 the
claim asserts for every node (VarDecl emits `STORE_VAR; POP`; it is
statement-valued). -/
theorem gos_c3_counterexample :
    compileProgram [.varDecl "x" (.val (.num (.fin 1)))]
      = .ok ⟨[0, 0, 2, 0, 22, 21], [.num (.fin 1)], 1⟩
    ∧ stepN ⟨[0, 0, 2, 0, 22, 21], [.num (.fin 1)], 1⟩ 4
        (initVM ⟨[0, 0, 2, 0, 22, 21], [.num (.fin 1)], 1⟩ [])
      = .halted ⟨6, [], [.num (.fin 1)], [], 0, [], []⟩ := by
  refine ⟨?_, rfl⟩
  simp [compileProgram, compileProgramSt, compileSeq, compileExpr, initComp,
    declVar, emit, Except.map, Except.bind, Bind.bind, Op.toNat]

/-- C3 amended: a node of the expression core (literals combined with
the ten emitted operators, unary minus and logical not) compiled in
isolation runs to HALT leaving exactly one value — its value — on the
stack (net +1); a VarDecl wrapping such a node runs to HALT with an
empty stack (net 0), its value consumed by `STORE_VAR` and the
trailing `POP` discarding nothing. -/
theorem gos_c3_amended (e : Expression) (he : PureLit e) (name : String) :
    (∃ r : CompileResult, compileProgram [e] = .ok r ∧
        ∃ s1, HaltsWith r (initVM r []) s1 ∧ s1.stack = [evalPure e])
    ∧ ∃ r2 : CompileResult, compileProgram [.varDecl name e] = .ok r2 ∧
        ∃ s2, HaltsWith r2 (initVM r2 []) s2 ∧ s2.stack = [] := by
  obtain ⟨δ, κ, hc, run⟩ := pureCorrect e he initComp
  have hc' : compileExpr initComp e
      = .ok ⟨κ, δ, [⟨[], 0⟩], 0, [[]], [], 0⟩ := hc.trans rfl
  constructor
  · have hprog : compileProgram [e] = .ok ⟨δ ++ [Op.HALT.toNat], κ, 0⟩ := by
      simp [compileProgram, compileProgramSt, compileSeq, hc', emit,
        Except.map, Except.bind, Bind.bind]
    refine ⟨_, hprog, ?_⟩
    obtain ⟨n, hn⟩ := run ⟨δ ++ [Op.HALT.toNat], κ, 0⟩
      (initVM ⟨δ ++ [Op.HALT.toNat], κ, 0⟩ []) []
      ⟨[], [Op.HALT.toNat], by simp, rfl⟩ (by simp [initComp])
    have hget : (δ ++ [Op.HALT.toNat])[δ.length]? = some 21 := by
      rw [List.getElem?_append_right (Nat.le_refl _)]
      simp [Op.toNat]
    refine ⟨⟨δ.length + 1, [evalPure e], [], [], 0, [], []⟩, ⟨n + 1, ?_⟩, rfl⟩
    rw [stepN_add _ n 1 _ _ hn]
    simp [stepN, step, List.get?_eq_getElem?, initVM, hget, Op.toNat,
      Op.decode]
  · have hprog2 : compileProgram [.varDecl name e]
        = .ok ⟨δ ++ [Op.STORE_VAR.toNat, 0, Op.POP.toNat, Op.HALT.toNat],
               κ, 1⟩ := by
      simp [compileProgram, compileProgramSt, compileSeq, compileExpr, hc',
        declVar, emit, Except.map, Except.bind, Bind.bind, List.append_assoc]
    refine ⟨_, hprog2, ?_⟩
    obtain ⟨n, hn⟩ := run
      ⟨δ ++ [Op.STORE_VAR.toNat, 0, Op.POP.toNat, Op.HALT.toNat], κ, 1⟩
      (initVM ⟨δ ++ [Op.STORE_VAR.toNat, 0, Op.POP.toNat, Op.HALT.toNat],
        κ, 1⟩ []) []
      ⟨[], [Op.STORE_VAR.toNat, 0, Op.POP.toNat, Op.HALT.toNat], by simp, rfl⟩
      (by simp [initComp])
    have hcA : codeAt
        (δ ++ [Op.STORE_VAR.toNat, 0, Op.POP.toNat, Op.HALT.toNat])
        δ.length [Op.STORE_VAR.toNat, 0, Op.POP.toNat, Op.HALT.toNat] :=
      ⟨δ, [], by simp, rfl⟩
    have hg0 := codeAt_get hcA 0 (by simp)
    have hg1 := codeAt_get hcA 1 (by simp)
    have hg2 := codeAt_get hcA 2 (by simp)
    have hg3 := codeAt_get hcA 3 (by simp)
    simp only [Nat.add_zero, List.getElem?_cons_zero,
      List.getElem?_cons_succ, Op.toNat] at hg0 hg1 hg2 hg3 hcA
    refine ⟨⟨δ.length + 4, [], [evalPure e], [], 0, [], []⟩, ⟨n + 3, ?_⟩, rfl⟩
    rw [stepN_add _ n 3 _ _ hn]
    simp [stepN, step, List.get?_eq_getElem?, initVM, hg0, hg1, hg2, hg3,
      Op.toNat, Op.decode, popOr, setSlot]

/-- Witness for C3 amended at the literal `5` and the declaration
`let x = 5`. -/
theorem gos_c3_amended_witness :
    (∃ r : CompileResult, compileProgram [.val (.num (.fin 5))] = .ok r ∧
        ∃ s1, HaltsWith r (initVM r []) s1 ∧
          s1.stack = [evalPure (.val (.num (.fin 5)))])
    ∧ ∃ r2 : CompileResult,
        compileProgram [.varDecl "x" (.val (.num (.fin 5)))] = .ok r2 ∧
        ∃ s2, HaltsWith r2 (initVM r2 []) s2 ∧ s2.stack = [] :=
  gos_c3_amended (.val (.num (.fin 5))) (PureLit.val _) "x"
